import Mathlib

/-
Verification of the inventory resolution and data-merging engine of
pyinfra_cli/inventory.py.

Python runtime values relevant to the inventory code are modelled by the
inductive type PyVal (strings, integers, lists, tuples, string-keyed
dictionaries and a catch-all none). Python dictionaries are modelled as
association lists preserving insertion order, with update-in-place /
append-at-end assignment semantics. Fallible Python code (code that can
raise) is modelled with Except PyErr. External collaborators, per the
specification (section 6) - the exec-file primitive, the dotted-reference
importer, DNS resolution, the SSH configuration lookup and the
filesystem - are modelled as fields of an environment structure, so each
in-scope function is a pure function of that environment.
-/

/-- A Python runtime value, as far as the inventory engine inspects values:
strings, integers, lists, tuples, string-keyed dictionaries, and a none
placeholder for any other value. -/
inductive PyVal where
  | pstr : String → PyVal
  | pint : Int → PyVal
  | plist : List PyVal → PyVal
  | ptuple : List PyVal → PyVal
  | pdict : List (String × PyVal) → PyVal
  | pnone : PyVal

/-- Python exceptions that the modelled code can raise. The structured type
errors record the identity of the inventory function and the offending
value, mirroring the messages built in make_inventory_from_func. -/
inductive PyErr where
  | indexError
  | valueError
  | keyError
  | attributeError
  | notIterable
  | typeErrorNonDictReturn (funcName : String)
  | typeErrorNonDictData (funcName : String) (groupKey : String)
  | typeErrorInvalidHost (funcName : String) (host : PyVal)
  | typeErrorInvalidHostName (funcName : String) (hostName : PyVal)
  | cliErrorLoadFunc (funcName : String) (cause : String)

mutual

/-- Structural equality on modelled Python values, mirroring Python == on
the shapes the inventory code compares (strings and tuples of strings). -/
def PyVal.beq : PyVal → PyVal → Bool
  | .pstr a, .pstr b => a == b
  | .pint a, .pint b => a == b
  | .plist a, .plist b => PyVal.beqList a b
  | .ptuple a, .ptuple b => PyVal.beqList a b
  | .pdict a, .pdict b => PyVal.beqEntries a b
  | .pnone, .pnone => true
  | _, _ => false

def PyVal.beqList : List PyVal → List PyVal → Bool
  | [], [] => true
  | a :: as, b :: bs => PyVal.beq a b && PyVal.beqList as bs
  | _, _ => false

def PyVal.beqEntries : List (String × PyVal) → List (String × PyVal) → Bool
  | [], [] => true
  | (k1, v1) :: as, (k2, v2) :: bs => k1 == k2 && PyVal.beq v1 v2 && PyVal.beqEntries as bs
  | _, _ => false

end

/-- Membership test of a value in a Python list (the in operator). -/
def pyMem (x : PyVal) : List PyVal → Bool
  | [] => false
  | y :: ys => PyVal.beq x y || pyMem x ys

/-- Lookup in a Python dictionary modelled as an association list:
first entry with the given key. -/
def dictGet (k : String) : List (String × PyVal) → Option PyVal
  | [] => none
  | e :: rest => if e.1 = k then some e.2 else dictGet k rest

/-- Lookup in a dictionary whose values are dictionaries. -/
def dictGetD (k : String) : List (String × List (String × PyVal)) → Option (List (String × PyVal))
  | [] => none
  | e :: rest => if e.1 = k then some e.2 else dictGetD k rest

/-- The in operator on dictionary keys. -/
def dictContains (d : List (String × PyVal)) (k : String) : Bool :=
  (dictGet k d).isSome

/-- The in operator on keys of a dictionary of dictionaries. -/
def dictContainsD (d : List (String × List (String × PyVal))) (k : String) : Bool :=
  (dictGetD k d).isSome

/-- Python dictionary assignment d[k] = v: replace the value in place if the
key is present, otherwise append the new entry at the end (insertion order). -/
def dictSet (k : String) (v : PyVal) : List (String × PyVal) → List (String × PyVal)
  | [] => [(k, v)]
  | e :: rest => if e.1 = k then (k, v) :: rest else e :: dictSet k v rest

/-- Assignment for a dictionary of dictionaries. -/
def dictSetD (k : String) (v : List (String × PyVal)) :
    List (String × List (String × PyVal)) → List (String × List (String × PyVal))
  | [] => [(k, v)]
  | e :: rest => if e.1 = k then (k, v) :: rest else e :: dictSetD k v rest

/-- Python dict.pop(k): the dictionary with the entry for k removed. -/
def dictPop (k : String) (d : List (String × PyVal)) : List (String × PyVal) :=
  d.filter (fun e => !(decide (e.1 = k)))

/-- Removal for a dictionary of dictionaries. -/
def dictPopD (k : String) (d : List (String × List (String × PyVal))) :
    List (String × List (String × PyVal)) :=
  d.filter (fun e => !(decide (e.1 = k)))

/-- Python dict.update(e): assign every entry of e into d, in order. -/
def dictUpdate (d : List (String × PyVal)) : List (String × PyVal) → List (String × PyVal)
  | [] => d
  | e :: rest => dictUpdate (dictSet e.1 e.2 d) rest

/-- Python iteration over a value: lists and tuples yield their elements,
strings yield their characters as one-character strings, dictionaries yield
their keys; any other value raises a TypeError. -/
def pyIter : PyVal → Except PyErr (List PyVal)
  | .plist xs => .ok xs
  | .ptuple xs => .ok xs
  | .pstr s => .ok (s.toList.map (fun c => .pstr (String.singleton c)))
  | .pdict kvs => .ok (kvs.map (fun kv => .pstr kv.1))
  | _ => .error .notIterable

/-- str.startswith, computed on the character lists so that it reduces
definitionally. -/
def pyStartsWith (s p : String) : Bool :=
  p.toList.isPrefixOf s.toList

/-- isinstance(value, ALLOWED_HOST_TYPES), with ALLOWED_HOST_TYPES =
(str, tuple). -/
def isStrOrTuple : PyVal → Bool
  | .pstr _ => true
  | .ptuple _ => true
  | _ => false

/-- _get_any_tuple_first: item[0] if isinstance(item, tuple) else item.
Indexing an empty tuple raises IndexError. -/
def _get_any_tuple_first : PyVal → Except PyErr PyVal
  | .ptuple [] => .error .indexError
  | .ptuple (x :: _) => .ok x
  | v => .ok v

/-- The recurring idiom data = empty dict; if isinstance(v, tuple):
hosts, data = v - a pair tuple is unpacked, any other tuple raises
ValueError, and a non-tuple keeps empty data. -/
def pyUnpackPair : PyVal → Except PyErr (PyVal × PyVal)
  | .ptuple [h, d] => .ok (h, d)
  | .ptuple _ => .error .valueError
  | v => .ok (v, .pdict [])

/-- _is_inventory_group(key, value): names with a leading double underscore
are silently skipped, names with a single leading underscore are skipped
with a debug message; a list value is iterated directly; a tuple value is
replaced by its first element (IndexError when empty) and then iterated
(TypeError when not iterable); any other value is rejected; finally every
iterated element must be a str or tuple instance. -/
def _is_inventory_group (key : String) (value : PyVal) : Except PyErr Bool :=
  if pyStartsWith key "__" then .ok false
  else if pyStartsWith key "_" then .ok false
  else
    match value with
    | .plist items => .ok (items.all isStrOrTuple)
    | .ptuple [] => .error .indexError
    | .ptuple (v0 :: _) =>
      match pyIter v0 with
      | .ok items => .ok (items.all isStrOrTuple)
      | .error e => .error e
    | _ => .ok false

/-- _get_groups_from_filename, applied to the top-level bindings captured by
the external exec_file primitive (specification section 6): keep exactly the
bindings accepted by _is_inventory_group, in order; a raising classification
propagates. -/
def _get_groups_from_filename : List (String × PyVal) → Except PyErr (List (String × PyVal))
  | [] => .ok []
  | (key, value) :: rest => do
    let keep ← _is_inventory_group key value
    let others ← _get_groups_from_filename rest
    .ok (if keep then (key, value) :: others else others)

/-- The assembled Inventory, modelled from the spec at its construction
boundary (specification section 6): the pyinfra.api Inventory constructor is
out of scope, so an Inventory records exactly the constructor arguments -
the distinguished first argument (for the group "all"), the override data
and the remaining named groups. -/
structure Inventory where
  all : PyVal
  overrideData : Option (List (String × PyVal))
  groups : List (String × PyVal)

/-- Modelled from the spec: Inventory.empty of the out-of-scope pyinfra.api
layer, the empty inventory - no hosts, no data, no named groups. -/
def Inventory.empty : Inventory :=
  { all := .ptuple [.plist [], .pdict []], overrideData := none, groups := [] }

/-- A user-supplied inventory resolver function: its dunder name and the
result of calling it, which is either a returned value or a raised
exception (modelled as its message). -/
structure PyFunc where
  name : String
  call : Except String PyVal

/-- make_inventory_from_func, inner loop over the hosts of one group:
every host must be a str or tuple instance, is reduced with
_get_any_tuple_first, must then be a str, and is added to the combined
host set (modelled as an insertion-ordered list without duplicates). -/
def funcAddHosts (funcName : String) : List PyVal → List String → Except PyErr (List String)
  | [], acc => .ok acc
  | h :: hs, acc =>
    if !(isStrOrTuple h) then .error (.typeErrorInvalidHost funcName h)
    else do
      let hostname ← _get_any_tuple_first h
      match hostname with
      | .pstr s => funcAddHosts funcName hs (if s ∈ acc then acc else acc ++ [s])
      | v => .error (.typeErrorInvalidHostName funcName v)

/-- make_inventory_from_func, outer loop over the returned groups: a tuple
value is unpacked as (hosts, data) - raising ValueError unless it is a pair
- otherwise data defaults to the empty dictionary; data must be a
dictionary; the hosts are iterated and checked; the normalized pair is
recorded under the group key. -/
def funcGroupsLoop (funcName : String) :
    List (String × PyVal) → List String →
    Except PyErr (List String × List (String × PyVal))
  | [], acc => .ok (acc, [])
  | (key, hostsVal) :: rest, acc => do
    let (hosts, data) ← pyUnpackPair hostsVal
    let dataKvs ←
      match data with
      | .pdict kvs => Except.ok kvs
      | _ => Except.error (PyErr.typeErrorNonDictData funcName key)
    let hostsList ← pyIter hosts
    let acc2 ← funcAddHosts funcName hostsList acc
    let (accFinal, gwd) ← funcGroupsLoop funcName rest acc2
    .ok (accFinal, (key, PyVal.ptuple [hosts, PyVal.pdict dataKvs]) :: gwd)

/-- make_inventory_from_func: call the resolver (any raise becomes a fatal
CliError naming the function and the cause), require a dictionary result,
normalize and check every group, and build the Inventory from the combined
host set (with empty data) plus the per-group (hosts, data) pairs. -/
def make_inventory_from_func (inventory_func : PyFunc)
    (override_data : Option (List (String × PyVal))) : Except PyErr Inventory := do
  let groups ←
    match inventory_func.call with
    | .error e => Except.error (PyErr.cliErrorLoadFunc inventory_func.name e)
    | .ok v => Except.ok v
  let gs ←
    match groups with
    | .pdict kvs => Except.ok kvs
    | _ => Except.error (PyErr.typeErrorNonDictReturn inventory_func.name)
  let (combined, groups_with_data) ← funcGroupsLoop inventory_func.name gs []
  .ok { all := .ptuple [.plist (combined.map PyVal.pstr), .pdict []],
        overrideData := override_data,
        groups := groups_with_data }

/-- The ambient environment of external collaborators, per specification
section 6: the filesystem existence check, the exec-file primitive (the
top-level bindings captured from a source file, in definition order), the
working-directory shape helpers, the group-data directory scanner results
(one mapping group name to its data dictionary per scanned path, in file
order), the dotted-reference import primitive, DNS resolution and the SSH
client-configuration lookup (none when no configuration is loadable,
otherwise the hostname entry returned for a looked-up name). -/
structure World where
  pathExists : String → Bool
  fileAttrs : String → List (String × PyVal)
  dirnameAbs : String → String
  groupDataOf : String → List (String × List (String × PyVal))
  importAttr : String → Option PyFunc
  dnsResolves : String → Bool
  sshConfig : Option (String → Option String)

/-- _get_ssh_alias: none when no SSH configuration loads; otherwise look the
name up, take the hostname option, and return it unless it is missing or
equal to the name itself. -/
def _get_ssh_alias (w : World) (maybe_host : String) : Option String :=
  match w.sshConfig with
  | none => none
  | some lookup =>
    match lookup maybe_host with
    | none => none
    | some a => if maybe_host = a then none else some a

/-- _resolves_to_host: DNS resolution of the name itself, falling back to
resolving its SSH alias when the direct resolution fails. -/
def _resolves_to_host (w : World) (maybe_host : String) : Bool :=
  if w.dnsResolves maybe_host then true
  else
    match _get_ssh_alias w maybe_host with
    | none => false
    | some a => w.dnsResolves a

/-- str.split for a one-character separator, on character lists: splitting
the empty string yields one empty part, mirroring Python. -/
def splitListChar (c : Char) : List Char → List (List Char)
  | [] => [[]]
  | x :: xs =>
    if x = c then [] :: splitListChar c xs
    else
      match splitListChar c xs with
      | [] => [[x]]
      | y :: ys => (x :: y) :: ys

/-- str.split(sep) for a one-character separator. -/
def pySplit (s : String) (c : Char) : List String :=
  (splitListChar c s.toList).map String.mk

/-- The in operator for a character in a string. -/
def pyContainsChar (s : String) (c : Char) : Bool :=
  s.toList.contains c

/-- os.path.basename on a POSIX path: the part after the final slash. -/
def pyBasename (p : String) : String :=
  (pySplit p '/').getLastD p

/-- Join character lists with a separator character. -/
def joinChar (c : Char) : List (List Char) → List Char
  | [] => []
  | [x] => x
  | x :: xs => x ++ c :: joinChar c xs

/-- name.rsplit(".", 1)[0]: everything before the final dot, or the whole
string when it contains no dot. -/
def stripLastExt (s : String) : String :=
  let parts := splitListChar '.' s.toList
  if parts.length ≤ 1 then s else String.mk (joinChar '.' parts.dropLast)

/-- os.path.join of a directory and a relative entry. -/
def pathJoin (a b : String) : String :=
  if a = "" then b
  else if a.toList.getLastD ' ' = '/' then a ++ b
  else a ++ "/" ++ b

/-- Truthiness of the optional working directory string. -/
def optStrTruthy : Option String → Bool
  | some s => !(s.toList.isEmpty)
  | none => false

/-- make_inventory_from_files, synthesis inner loop: reduce each host of one
group to its name and append it to the accumulator unless already present. -/
def synthAddHostnames : List PyVal → List PyVal → Except PyErr (List PyVal)
  | [], acc => .ok acc
  | h :: hs, acc => do
    let hostname ← _get_any_tuple_first h
    synthAddHostnames hs (if pyMem hostname acc then acc else acc ++ [hostname])

/-- make_inventory_from_files, synthesis outer loop over all groups: each
group value is reduced to its host list with _get_any_tuple_first and
iterated; every host name is collected in first-seen order without
duplicates. -/
def synthAllHosts : List (String × PyVal) → List PyVal → Except PyErr (List PyVal)
  | [], acc => .ok acc
  | (_, v) :: rest, acc => do
    let hostsVal ← _get_any_tuple_first v
    let hosts ← pyIter hostsVal
    let acc2 ← synthAddHostnames hosts acc
    synthAllHosts rest acc2

/-- make_inventory_from_files, resolution of the group "all": when defined
it is popped and a tuple value is unpacked as (hosts, data) - raising
ValueError unless it is a pair - with data defaulting to the empty
dictionary; otherwise the hosts are synthesized from all other groups.
Returns the remaining groups, the hosts value and the data value. -/
def resolveAll (groups : List (String × PyVal)) :
    Except PyErr (List (String × PyVal) × PyVal × PyVal) :=
  match dictGet "all" groups with
  | some v =>
    let rest := dictPop "all" groups
    match v with
    | .ptuple [h, d] => .ok (rest, h, d)
    | .ptuple _ => .error .valueError
    | _ => .ok (rest, v, .pdict [])
  | none => do
    let hs ← synthAllHosts groups []
    .ok (groups, .plist hs, .pdict [])

/-- make_inventory_from_files, the filename-group step: when the file group
name is truthy and not already a key, it is assigned the hosts value of the
group "all". -/
def applyFileGroup (groups : List (String × PyVal)) (file_groupname : Option String)
    (all_hosts : PyVal) : List (String × PyVal) :=
  match file_groupname with
  | some b => if b ≠ "" && !(dictContains groups b) then dictSet b all_hosts groups else groups
  | none => groups

/-- make_inventory_from_files, the candidate group_data folder list: the
group_data folder under the working directory when one was supplied, then
the group_data folder next to the definition file unless its directory
equals the working directory, then any explicitly supplied directories. -/
def possibleGroupDataFolders (cwd : Option String) (inventory_dirname : String)
    (group_data_directories : Option (List String)) : List String :=
  let l : List String := []
  let l := if optStrTruthy cwd then l ++ [pathJoin (cwd.getD "") "group_data"] else l
  let l := if some inventory_dirname ≠ cwd then l ++ [pathJoin inventory_dirname "group_data"] else l
  match group_data_directories with
  | some ds => if ds ≠ [] then l ++ ds else l
  | none => l

/-- make_inventory_from_files, accumulation over one scanned folder: each
returned (group name, data) pair is merged into the accumulator with
dict.update, later entries overwriting earlier keys. -/
def accFolder : List (String × List (String × PyVal)) →
    List (String × List (String × PyVal)) → List (String × List (String × PyVal))
  | [], acc => acc
  | (g, data) :: rest, acc =>
    accFolder rest (dictSetD g (dictUpdate ((dictGetD g acc).getD []) data) acc)

/-- make_inventory_from_files, accumulation over the candidate folders in
order. -/
def accGroupData (gdOf : String → List (String × List (String × PyVal))) :
    List String → List (String × List (String × PyVal)) → List (String × List (String × PyVal))
  | [], acc => acc
  | f :: fs, acc => accGroupData gdOf fs (accFolder (gdOf f) acc)

/-- make_inventory_from_files, per-group data load: each group value is
normalized to (hosts, data) - a tuple is unpacked as a pair, raising
ValueError otherwise, any other value gets empty data - and when the
accumulator holds data for the group name it is merged into the data
(dict.update on a non-dictionary raises AttributeError) and popped from the
accumulator. Returns the rebuilt groups and the leftover accumulator. -/
def mergeGroupData (gd : List (String × List (String × PyVal))) :
    List (String × PyVal) →
    Except PyErr (List (String × PyVal) × List (String × List (String × PyVal)))
  | [] => .ok ([], gd)
  | (name, hostsVal) :: rest => do
    let (hosts, data) ← pyUnpackPair hostsVal
    let (data2, gd2) ←
      match dictGetD name gd with
      | some extra =>
        match data with
        | .pdict kvs => Except.ok (PyVal.pdict (dictUpdate kvs extra), dictPopD name gd)
        | _ => Except.error PyErr.attributeError
      | none => Except.ok (data, gd)
    let (groupsRest, gdFinal) ← mergeGroupData gd2 rest
    .ok ((name, PyVal.ptuple [hosts, data2]) :: groupsRest, gdFinal)

/-- make_inventory_from_files, final loop over leftover group data: every
group name still in the accumulator becomes a group with an empty host list
and that data. -/
def addLeftoverGroups : List (String × PyVal) → List (String × List (String × PyVal)) →
    List (String × PyVal)
  | groups, [] => groups
  | groups, (name, data) :: rest =>
    addLeftoverGroups (dictSet name (PyVal.ptuple [PyVal.plist [], PyVal.pdict data]) groups) rest

/-- make_inventory_from_files: when the path does not exist the input is
treated as a comma-separated host list forming the group "all" and no file
group name is set; otherwise the definition file is loaded (through the
external exec-file primitive of the World) and the file group name is the
base name without extension. The group "all" is resolved and re-inserted,
the filename group applied, group data accumulated over the candidate
folders and merged per group, leftover data turned into empty groups, and
the Inventory constructed with the group "all" popped as its first
argument. The fake-inventory context used while data files execute only
scopes the out-of-scope exec primitive and has no effect on the result
here. -/
def make_inventory_from_files (w : World) (inventory_filename : String)
    (override_data : Option (List (String × PyVal))) (cwd : Option String)
    (group_data_directories : Option (List String)) : Except PyErr Inventory := do
  let (groups0, file_groupname) ←
    if !(w.pathExists inventory_filename) then
      Except.ok ([("all", PyVal.plist ((pySplit inventory_filename ',').map PyVal.pstr))],
        (none : Option String))
    else do
      let g ← _get_groups_from_filename (w.fileAttrs inventory_filename)
      Except.ok (g, some (stripLastExt (pyBasename inventory_filename)))
  let (groups1, all_hosts, all_data) ← resolveAll groups0
  let groups2 := dictSet "all" (PyVal.ptuple [all_hosts, all_data]) groups1
  let groups3 := applyFileGroup groups2 file_groupname all_hosts
  let folders := possibleGroupDataFolders cwd (w.dirnameAbs inventory_filename) group_data_directories
  let gd := accGroupData w.groupDataOf folders []
  let (groups4, gdLeft) ← mergeGroupData gd groups3
  let groups5 := addLeftoverGroups groups4 gdLeft
  match dictGet "all" groups5 with
  | some allGroup =>
    .ok { all := allGroup, overrideData := override_data, groups := dictPop "all" groups5 }
  | none => .error .keyError

/-- Does override_data contain the key ssh_hostname. -/
def hasSshHostname : Option (List (String × PyVal)) → Bool
  | some d => dictContains d "ssh_hostname"
  | none => false

/-- make_inventory: the descriptor goes to the file/list path when it names
an existing path, contains a comma, contains an at sign, or override_data
carries ssh_hostname; otherwise an importable function is tried; otherwise
the descriptor goes to the file/list path when it resolves as a host; and
otherwise an empty inventory is returned after a warning. -/
def make_inventory (w : World) (inventory : String)
    (override_data : Option (List (String × PyVal))) (cwd : Option String)
    (group_data_directories : Option (List String)) : Except PyErr Inventory :=
  let is_path_or_host_list_or_connector :=
    w.pathExists inventory || pyContainsChar inventory ',' || pyContainsChar inventory '@' ||
      hasSshHostname override_data
  if is_path_or_host_list_or_connector then
    make_inventory_from_files w inventory override_data cwd group_data_directories
  else
    match w.importAttr inventory with
    | some f => make_inventory_from_func f override_data
    | none =>
      if _resolves_to_host w inventory then
        make_inventory_from_files w inventory override_data cwd group_data_directories
      else
        .ok Inventory.empty

/-
Specification-side definitions. The functions and predicates below restate
the vocabulary of the specification (ordered unions, last-writer-wins
lookups, validity of resolver return values, accepted binding shapes) so
that the behaviour of the translated code can be compared against them.
-/

/-- Error-propagating map over a list. -/
def exMapM {α β : Type} (f : α → Except PyErr β) : List α → Except PyErr (List β)
  | [] => .ok []
  | x :: xs => do
    let y ← f x
    let ys ← exMapM f xs
    .ok (y :: ys)

/-- Specification-side: append the elements of a list to an accumulator in
order, skipping any element already present - first-seen order,
deduplicated. -/
def dedupAppend (acc : List PyVal) : List PyVal → List PyVal
  | [] => acc
  | x :: xs => dedupAppend (if pyMem x acc then acc else acc ++ [x]) xs

/-- Specification-side: the bare name of every host of every group, in group
order then host order, with repetitions kept. -/
def collectHostnames : List (String × PyVal) → Except PyErr (List PyVal)
  | [] => .ok []
  | (_, v) :: rest => do
    let hostsVal ← _get_any_tuple_first v
    let hosts ← pyIter hostsVal
    let names ← exMapM _get_any_tuple_first hosts
    let more ← collectHostnames rest
    .ok (names ++ more)

/-- Specification-side: the group-data entries produced by scanning the
given folders, concatenated in scan order. -/
def foldersData (gdOf : String → List (String × List (String × PyVal))) :
    List String → List (String × List (String × PyVal))
  | [] => []
  | f :: fs => gdOf f ++ foldersData gdOf fs

/-- Specification-side: the value the accumulated group data assigns to key
k of group g - the value from the latest scanned entry for g that defines
k, later entries overwriting earlier ones. -/
def lastWins (g k : String) : List (String × List (String × PyVal)) → Option PyVal
  | [] => none
  | e :: rest =>
    match lastWins g k rest with
    | some v => some v
    | none => if e.1 = g then dictGet k e.2 else none

/-- Nested lookup: the value for key k of group g in a group-data mapping. -/
def dictGet2 (d : List (String × List (String × PyVal))) (g k : String) : Option PyVal :=
  (dictGetD g d).bind (fun m => dictGet k m)

/-- Specification-side: the per-group transformation performed by the data
load of make_inventory_from_files, as a function of one entry against the
full accumulator. -/
def mergeEntrySpec (gd : List (String × List (String × PyVal))) :
    String × PyVal → Except PyErr (String × PyVal)
  | (name, hostsVal) => do
    let (hosts, data) ← pyUnpackPair hostsVal
    match dictGetD name gd with
    | some extra =>
      match data with
      | .pdict kvs => Except.ok (name, PyVal.ptuple [hosts, PyVal.pdict (dictUpdate kvs extra)])
      | _ => Except.error PyErr.attributeError
    | none => Except.ok (name, PyVal.ptuple [hosts, data])

/-- The hosts component of a group value: the first element of a tuple,
otherwise the value itself. -/
def hostsComponent : PyVal → PyVal
  | .ptuple (h :: _) => h
  | v => v

/-- The data component of a group value: the second element of a pair,
otherwise the empty dictionary. -/
def dataComponent : PyVal → PyVal
  | .ptuple [_, d] => d
  | _ => .pdict []

/-- The elements a value yields when iterated, or none when it is not
iterable. -/
def elemsOf (v : PyVal) : List PyVal :=
  match pyIter v with
  | .ok l => l
  | .error _ => []

/-- Specification-side: a host value that normalizes to a string name - a
bare string, or a tuple whose first element is a string. -/
def validFuncHost : PyVal → Prop
  | .pstr _ => True
  | .ptuple (.pstr _ :: _) => True
  | _ => False

/-- Specification-side: a group value that make_inventory_from_func accepts
without raising - a pair of an iterable of valid hosts and a dictionary, a
non-tuple iterable of valid hosts; tuples of other lengths raise. -/
def validFuncGroup (v : PyVal) : Prop :=
  match v with
  | .ptuple [h, d] =>
    (∃ kvs, d = PyVal.pdict kvs) ∧ (∃ hs, pyIter h = .ok hs ∧ ∀ x ∈ hs, validFuncHost x)
  | .ptuple _ => False
  | h => ∃ hs, pyIter h = .ok hs ∧ ∀ x ∈ hs, validFuncHost x

/-- Specification-side: a resolver function that returns a dictionary all of
whose groups are accepted. -/
def validResolver (f : PyFunc) : Prop :=
  ∃ gs, f.call = .ok (.pdict gs) ∧ ∀ e ∈ gs, validFuncGroup e.2

/-- Specification-side: the errors make_inventory_from_func can raise, and
which of them carry the identity of the resolver function: the CliError and
the structured type errors name the function, while the tuple-unpack
ValueError, the empty-tuple IndexError and the iteration TypeError carry no
identity. -/
def errFromFunc (n : String) : PyErr → Prop
  | .cliErrorLoadFunc m _ => m = n
  | .typeErrorNonDictReturn m => m = n
  | .typeErrorNonDictData m _ => m = n
  | .typeErrorInvalidHost m _ => m = n
  | .typeErrorInvalidHostName m _ => m = n
  | .valueError => True
  | .indexError => True
  | .notIterable => True
  | _ => False

/-- The four fatal cases named by the claim on make_inventory_from_func: the
resolver raises, returns a non-mapping, yields a group whose data component
is not a mapping, or yields a host that does not reduce to a string after
tuple-first normalization. -/
def claimFourFatal (f : PyFunc) : Prop :=
  (∃ e, f.call = .error e) ∨
  (∃ v, f.call = .ok v ∧ ∀ gs, v ≠ PyVal.pdict gs) ∨
  (∃ gs, f.call = .ok (.pdict gs) ∧ ∃ e ∈ gs, ∃ h d, e.2 = PyVal.ptuple [h, d] ∧
    ∀ kvs, d ≠ PyVal.pdict kvs) ∨
  (∃ gs, f.call = .ok (.pdict gs) ∧ ∃ e ∈ gs, ∃ x ∈ elemsOf (hostsComponent e.2),
    ∀ s, _get_any_tuple_first x ≠ .ok (.pstr s))

/-- Specification-side normalization of one returned group of a resolver
function: the hosts component kept as returned, the data component
defaulting to the empty dictionary. -/
def funcEntryNorm (e : String × PyVal) : String × PyVal :=
  (e.1, PyVal.ptuple [hostsComponent e.2, dataComponent e.2])

/-- The claim-side host element shape for definition files: a bare string or
a (string, mapping) pair. -/
def specHostElem : PyVal → Prop
  | .pstr _ => True
  | .ptuple [.pstr _, .pdict _] => True
  | _ => False

/-- The claim-side accepted binding shape: no leading underscore, and the
value is a plain sequence, or a (sequence, mapping) pair, every element of
the sequence being a bare string or a (string, mapping) pair. -/
def specGroupShape (key : String) (value : PyVal) : Prop :=
  ¬ pyStartsWith key "_" = true ∧
  ∃ items, ((value = PyVal.plist items) ∨
      (∃ d, value = PyVal.ptuple [PyVal.plist items, PyVal.pdict d])) ∧
    ∀ x ∈ items, specHostElem x

/-- The binding shape the code actually accepts: no leading underscore, and
the value is a list of str-or-tuple elements, or a tuple whose first
element iterates to str-or-tuple elements. -/
def acceptedGroupShape (key : String) (value : PyVal) : Prop :=
  ¬ pyStartsWith key "_" = true ∧
  ((∃ items, value = PyVal.plist items ∧ ∀ x ∈ items, isStrOrTuple x = true) ∨
   (∃ v0 rest items, value = PyVal.ptuple (v0 :: rest) ∧ pyIter v0 = .ok items ∧
      ∀ x ∈ items, isStrOrTuple x = true))

/-- The classification outcome of one binding as a Bool: accepted, with any
raise counting as not accepted. -/
def acceptsGroupB (e : String × PyVal) : Bool :=
  match _is_inventory_group e.1 e.2 with
  | .ok b => b
  | .error _ => false

/-
Concrete environments and resolver functions used to instantiate the
theorems below at specific inputs.
-/

/-- An environment with an empty filesystem and no resolution facilities. -/
def envPlain : World :=
  { pathExists := fun _ => false
    fileAttrs := fun _ => []
    dirnameAbs := fun _ => "/abs"
    groupDataOf := fun _ => []
    importAttr := fun _ => none
    dnsResolves := fun _ => false
    sshConfig := none }

/-- The resolver function of the specification scenario: one group web with
hosts h1, h2 and data port = 80. -/
def funcWeb : PyFunc :=
  { name := "make_hosts"
    call := .ok (.pdict [("web", .ptuple [.plist [.pstr "h1", .pstr "h2"],
      .pdict [("port", .pint 80)]])]) }

/-- A resolver function returning a group whose value is a bare integer:
it avoids all four fatal cases named by the claim, yet iterating the value
raises. -/
def funcBadGroup : PyFunc :=
  { name := "bad", call := .ok (.pdict [("g", .pint 5)]) }

/-- An environment holding the hidden definition file named .py, defining
one group g1 = [a]. The base name of the file with its extension stripped
is the empty string. -/
def envDotFile : World :=
  { pathExists := fun s => decide (s = ".py")
    fileAttrs := fun _ => [("g1", .plist [.pstr "a"])]
    dirnameAbs := fun _ => "/inv"
    groupDataOf := fun _ => []
    importAttr := fun _ => none
    dnsResolves := fun _ => false
    sshConfig := none }

/-- An environment with no inventory files but a group_data folder next to
the (non-existent) definition file, holding data for a group named web. -/
def envCommaData : World :=
  { pathExists := fun _ => false
    fileAttrs := fun _ => []
    dirnameAbs := fun _ => "/d"
    groupDataOf := fun f => if f = "/d/group_data" then [("web", [("x", .pint 1)])] else []
    importAttr := fun _ => none
    dnsResolves := fun _ => false
    sshConfig := none }

/-- An environment holding the definition file inventories/dev.py defining
one group g1 = [a, b]. -/
def envDevFile : World :=
  { pathExists := fun s => decide (s = "inventories/dev.py")
    fileAttrs := fun _ => [("g1", .plist [.pstr "a", .pstr "b"])]
    dirnameAbs := fun _ => "/inv"
    groupDataOf := fun _ => []
    importAttr := fun _ => none
    dnsResolves := fun _ => false
    sshConfig := none }

/-- An environment where every descriptor imports the web resolver function
and nothing exists on the filesystem or resolves over the network. -/
def envImportable : World :=
  { pathExists := fun _ => false
    fileAttrs := fun _ => []
    dirnameAbs := fun _ => "/d"
    groupDataOf := fun _ => []
    importAttr := fun _ => some funcWeb
    dnsResolves := fun _ => false
    sshConfig := none }

/-
Helper lemmas about the dictionary model.
-/

theorem pyStartsWith_double {key : String} (h : pyStartsWith key "__" = true) :
    pyStartsWith key "_" = true := by
  unfold pyStartsWith at *
  cases hl : key.toList with
  | nil => rw [hl] at h; simp [List.isPrefixOf] at h
  | cons c cs =>
    rw [hl] at h
    simp [List.isPrefixOf] at h ⊢
    exact h.1

theorem dictGet_set_self (k : String) (v : PyVal) (d : List (String × PyVal)) :
    dictGet k (dictSet k v d) = some v := by
  induction d with
  | nil => simp [dictSet, dictGet]
  | cons e rest ih =>
    by_cases h : e.1 = k
    · simp [dictSet, dictGet, h]
    · simp [dictSet, dictGet, h, ih]

theorem dictGet_set_ne {k k' : String} (h : k' ≠ k) (v : PyVal) (d : List (String × PyVal)) :
    dictGet k (dictSet k' v d) = dictGet k d := by
  induction d with
  | nil => simp [dictSet, dictGet, h]
  | cons e rest ih =>
    by_cases he : e.1 = k'
    · have : ¬ (k' = k) := h
      simp [dictSet, dictGet, he, this, ih]
    · by_cases hek : e.1 = k
      · have h2 : ¬ (k = k') := fun hc => h hc.symm
        simp [dictSet, dictGet, he, hek, h2]
      · simp [dictSet, dictGet, he, hek, ih]

theorem dictGet_pop_self (k : String) (d : List (String × PyVal)) :
    dictGet k (dictPop k d) = none := by
  induction d with
  | nil => simp [dictPop, dictGet]
  | cons e rest ih =>
    by_cases h : e.1 = k
    · simpa [dictPop, dictGet, h] using ih
    · simpa [dictPop, dictGet, h] using ih

theorem dictGet_pop_ne {k k' : String} (h : k ≠ k') (d : List (String × PyVal)) :
    dictGet k (dictPop k' d) = dictGet k d := by
  induction d with
  | nil => simp [dictPop, dictGet]
  | cons e rest ih =>
    by_cases he : e.1 = k'
    · have h2 : ¬ (k' = k) := fun hc => h hc.symm
      simpa [dictPop, dictGet, he, h2] using ih
    · by_cases hek : e.1 = k
      · simp [dictPop, List.filter, dictGet, he, hek, h]
      · simpa [dictPop, List.filter, dictGet, he, hek] using ih

theorem dictGet_eq_none_iff (k : String) (d : List (String × PyVal)) :
    dictGet k d = none ↔ ∀ e ∈ d, e.1 ≠ k := by
  induction d with
  | nil => simp [dictGet]
  | cons e rest ih =>
    by_cases h : e.1 = k
    · simp [dictGet, h]
    · simp [dictGet, h, ih]

theorem dictGet_append (k : String) (d1 d2 : List (String × PyVal)) :
    dictGet k (d1 ++ d2) =
      match dictGet k d1 with
      | some v => some v
      | none => dictGet k d2 := by
  induction d1 with
  | nil => simp [dictGet]
  | cons e rest ih =>
    by_cases h : e.1 = k
    · simp [dictGet, h]
    · simp [dictGet, h, ih]

theorem dictSet_absent {k : String} {d : List (String × PyVal)}
    (h : dictGet k d = none) (v : PyVal) :
    dictSet k v d = d ++ [(k, v)] := by
  induction d with
  | nil => simp [dictSet]
  | cons e rest ih =>
    rw [dictGet] at h
    by_cases he : e.1 = k
    · simp [he] at h
    · simp [he] at h
      simp [dictSet, he, ih h]

/-- C9: the group-classification check is claimed to return a boolean without
raising for every binding; on the binding mygroup = () the code raises
IndexError from indexing the empty tuple, and the error escapes the loader. -/
theorem claim9_empty_tuple_binding_raises :
    _is_inventory_group "mygroup" (.ptuple []) = .error .indexError ∧
    _get_groups_from_filename [("mygroup", .ptuple [])] = .error .indexError :=
  ⟨rfl, rfl⟩

/-- C8, counterexample: the claim accepts a binding if and only if every
element of its sequence is a bare string or a (string, mapping) pair; the
code accepts the binding g = [(42,)], whose element is a tuple that is not a
(string, mapping) pair. -/
theorem claim8_counterexample :
    _is_inventory_group "g" (.plist [.ptuple [.pint 42]]) = .ok true ∧
    ¬ specGroupShape "g" (.plist [.ptuple [.pint 42]]) := by
  refine ⟨rfl, ?_⟩
  rintro ⟨-, items, hcase, hall⟩
  rcases hcase with h | ⟨d, h⟩
  · injection h with h2
    subst h2
    have := hall (PyVal.ptuple [PyVal.pint 42]) (by simp)
    simp [specHostElem] at this
  · cases h

/-- C8, amended: a binding is accepted exactly when its name has no leading
underscore and its value is a list of str-or-tuple elements, or a tuple
whose first element iterates to str-or-tuple elements (tuple elements are
accepted by type alone, their contents unchecked); and the loader output
consists of exactly the accepted bindings, in order. -/
theorem claim8_amended :
    (∀ key value, _is_inventory_group key value = .ok true ↔ acceptedGroupShape key value) ∧
    (∀ attrs out, _get_groups_from_filename attrs = .ok out →
      out = attrs.filter acceptsGroupB) := by
  constructor
  · intro key value
    constructor
    · intro h
      unfold _is_inventory_group at h
      by_cases h2 : pyStartsWith key "__" = true
      · rw [if_pos h2] at h
        injection h with hb
        cases hb
      · rw [if_neg h2] at h
        by_cases h1 : pyStartsWith key "_" = true
        · rw [if_pos h1] at h
          injection h with hb
          cases hb
        · rw [if_neg h1] at h
          refine ⟨h1, ?_⟩
          cases value with
          | pstr s => exact absurd h (by simp)
          | pint n => exact absurd h (by simp)
          | pnone => exact absurd h (by simp)
          | pdict kvs => exact absurd h (by simp)
          | plist items =>
            injection h with hb
            exact Or.inl ⟨items, rfl, List.all_eq_true.mp hb⟩
          | ptuple xs =>
            cases xs with
            | nil => cases h
            | cons v0 rest =>
              have h3 : (match pyIter v0 with
                  | Except.ok items => Except.ok (items.all isStrOrTuple)
                  | Except.error e => (Except.error e : Except PyErr Bool)) = .ok true := h
              cases hi : pyIter v0 with
              | ok items =>
                rw [hi] at h3
                injection h3 with hb
                exact Or.inr ⟨v0, rest, items, rfl, hi, List.all_eq_true.mp hb⟩
              | error e =>
                rw [hi] at h3
                cases h3
    · rintro ⟨h1, hcase⟩
      have h2 : ¬ pyStartsWith key "__" = true := fun hc => h1 (pyStartsWith_double hc)
      unfold _is_inventory_group
      rw [if_neg h2, if_neg h1]
      rcases hcase with ⟨items, rfl, hall⟩ | ⟨v0, rest, items, rfl, hi, hall⟩
      · exact congrArg Except.ok (List.all_eq_true.mpr hall)
      · show (match pyIter v0 with
          | .ok items => Except.ok (items.all isStrOrTuple)
          | .error e => Except.error e) = .ok true
        rw [hi]
        exact congrArg Except.ok (List.all_eq_true.mpr hall)
  · intro attrs
    induction attrs with
    | nil =>
      intro out h
      injection h with h2
      simp [h2.symm]
    | cons e rest ih =>
      intro out h
      obtain ⟨key, value⟩ := e
      rw [_get_groups_from_filename] at h
      cases hc : _is_inventory_group key value with
      | error e2 => rw [hc] at h; cases h
      | ok b =>
        rw [hc] at h
        cases hr : _get_groups_from_filename rest with
        | error e2 => rw [hr] at h; cases h
        | ok others =>
          rw [hr] at h
          have h4 : Except.ok (if b then (key, value) :: others else others) =
              (Except.ok out : Except PyErr (List (String × PyVal))) := h
          injection h4 with h2
          have hB : acceptsGroupB (key, value) = b := by
            simp [acceptsGroupB, hc]
          subst h2
          cases b with
          | true => simp [List.filter_cons, hB, ih others hr]
          | false => simp [List.filter_cons, hB, ih others hr]

/-- C10: a descriptor that is not a path, contains no comma and no at sign,
with no ssh_hostname override, that imports no function and resolves to no
host, yields the empty inventory without an error (the warning itself is
logging, out of scope). -/
theorem claim10_unresolvable (w : World) (inventory : String)
    (od : Option (List (String × PyVal))) (cwd : Option String) (gdd : Option (List String))
    (hpath : w.pathExists inventory = false)
    (hcomma : pyContainsChar inventory ',' = false)
    (hat : pyContainsChar inventory '@' = false)
    (hssh : hasSshHostname od = false)
    (himp : w.importAttr inventory = none)
    (hres : _resolves_to_host w inventory = false) :
    make_inventory w inventory od cwd gdd = .ok Inventory.empty := by
  unfold make_inventory
  simp [hpath, hcomma, hat, hssh, himp, hres]

/-- C10, witness: the unresolvable descriptor of the specification scenario
in an environment with nothing on the filesystem, no importable functions
and no resolving names. -/
theorem claim10_witness :
    make_inventory envPlain "not-a-path-or-host" none none none = .ok Inventory.empty :=
  claim10_unresolvable envPlain "not-a-path-or-host" none none none rfl rfl rfl rfl rfl rfl

/-- C3: first-match-wins classification - a descriptor that is a path, or
contains a comma or an at sign, or comes with an ssh_hostname override,
always takes the file/list path, regardless of any importable function of
the same name; otherwise an importable function takes the function path;
otherwise a resolving hostname takes the file/list path. -/
theorem claim3_classifier_order :
    (∀ (w : World) inventory od cwd gdd,
      (w.pathExists inventory || pyContainsChar inventory ',' || pyContainsChar inventory '@' ||
        hasSshHostname od) = true →
      make_inventory w inventory od cwd gdd =
        make_inventory_from_files w inventory od cwd gdd) ∧
    (∀ (w : World) inventory od cwd gdd f,
      (w.pathExists inventory || pyContainsChar inventory ',' || pyContainsChar inventory '@' ||
        hasSshHostname od) = false →
      w.importAttr inventory = some f →
      make_inventory w inventory od cwd gdd = make_inventory_from_func f od) ∧
    (∀ (w : World) inventory od cwd gdd,
      (w.pathExists inventory || pyContainsChar inventory ',' || pyContainsChar inventory '@' ||
        hasSshHostname od) = false →
      w.importAttr inventory = none →
      _resolves_to_host w inventory = true →
      make_inventory w inventory od cwd gdd =
        make_inventory_from_files w inventory od cwd gdd) := by
  refine ⟨?_, ?_, ?_⟩
  · intro w inventory od cwd gdd h
    unfold make_inventory
    simp [h]
  · intro w inventory od cwd gdd f h himp
    unfold make_inventory
    simp [h, himp]
  · intro w inventory od cwd gdd h himp hres
    unfold make_inventory
    simp [h, himp, hres]

/-- C3, witness: the descriptor db1,db2 contains a comma and also imports a
function in this environment; classification takes the file/list path. -/
theorem claim3_witness :
    make_inventory envImportable "db1,db2" none none none =
      make_inventory_from_files envImportable "db1,db2" none none none ∧
    envImportable.importAttr "db1,db2" = some funcWeb :=
  ⟨claim3_classifier_order.1 envImportable "db1,db2" none none none rfl, rfl⟩

theorem dedupAppend_append (xs ys : List PyVal) : ∀ acc,
    dedupAppend acc (xs ++ ys) = dedupAppend (dedupAppend acc xs) ys := by
  induction xs with
  | nil => intro acc; simp [dedupAppend]
  | cons x xs ih => intro acc; simp [dedupAppend, ih]

theorem synthAddHostnames_spec : ∀ (hosts : List PyVal) (acc names : List PyVal),
    exMapM _get_any_tuple_first hosts = .ok names →
    synthAddHostnames hosts acc = .ok (dedupAppend acc names) := by
  intro hosts
  induction hosts with
  | nil =>
    intro acc names h
    injection h with h2
    subst h2
    rfl
  | cons h hs ih =>
    intro acc names hm
    rw [exMapM] at hm
    cases hf : _get_any_tuple_first h with
    | error e => rw [hf] at hm; cases hm
    | ok y =>
      rw [hf] at hm
      cases hr : exMapM _get_any_tuple_first hs with
      | error e => rw [hr] at hm; cases hm
      | ok ys =>
        rw [hr] at hm
        have h4 : Except.ok (y :: ys) = (Except.ok names : Except PyErr (List PyVal)) := hm
        injection h4 with h2
        subst h2
        rw [synthAddHostnames, hf]
        show synthAddHostnames hs (if pyMem y acc then acc else acc ++ [y]) = _
        rw [ih _ ys hr]
        rfl

theorem synthAllHosts_spec : ∀ (groups : List (String × PyVal)) (acc names : List PyVal),
    collectHostnames groups = .ok names →
    synthAllHosts groups acc = .ok (dedupAppend acc names) := by
  intro groups
  induction groups with
  | nil =>
    intro acc names h
    injection h with h2
    subst h2
    rfl
  | cons e rest ih =>
    intro acc names hm
    obtain ⟨k, v⟩ := e
    rw [collectHostnames] at hm
    cases h1 : _get_any_tuple_first v with
    | error e2 => rw [h1] at hm; cases hm
    | ok hostsVal =>
      rw [h1] at hm
      have hm2 : (do
          let hosts ← pyIter hostsVal
          let ns ← exMapM _get_any_tuple_first hosts
          let more ← collectHostnames rest
          Except.ok (ns ++ more)) = (Except.ok names : Except PyErr (List PyVal)) := hm
      cases h2 : pyIter hostsVal with
      | error e2 => rw [h2] at hm2; cases hm2
      | ok hosts =>
        rw [h2] at hm2
        have hm3 : (do
            let ns ← exMapM _get_any_tuple_first hosts
            let more ← collectHostnames rest
            Except.ok (ns ++ more)) = (Except.ok names : Except PyErr (List PyVal)) := hm2
        cases h3 : exMapM _get_any_tuple_first hosts with
        | error e2 => rw [h3] at hm3; cases hm3
        | ok ns =>
          rw [h3] at hm3
          cases h5 : collectHostnames rest with
          | error e2 => rw [h5] at hm3; cases hm3
          | ok more =>
            rw [h5] at hm3
            have h6 : Except.ok (ns ++ more) = (Except.ok names : Except PyErr (List PyVal)) := hm3
            injection h6 with h7
            subst h7
            rw [synthAllHosts, h1]
            show (do
              let hosts2 ← pyIter hostsVal
              let acc2 ← synthAddHostnames hosts2 acc
              synthAllHosts rest acc2) = _
            rw [h2]
            show (do
              let acc2 ← synthAddHostnames hosts acc
              synthAllHosts rest acc2) = _
            rw [synthAddHostnames_spec hosts acc ns h3]
            show synthAllHosts rest (dedupAppend acc ns) = _
            rw [ih _ more h5, dedupAppend_append]

/-- C1: resolving the group "all" - when defined as a (hosts, data) pair it
is popped and its components used as given; when defined as a non-tuple
value it is popped with empty data; when absent it is synthesized as the
ordered union of the bare name of every host across all other groups, in
first-seen order, deduplicated. -/
theorem claim1_resolve_all :
    (∀ groups h d, dictGet "all" groups = some (PyVal.ptuple [h, d]) →
      resolveAll groups = .ok (dictPop "all" groups, h, d)) ∧
    (∀ groups v, dictGet "all" groups = some v → (∀ xs, v ≠ PyVal.ptuple xs) →
      resolveAll groups = .ok (dictPop "all" groups, v, PyVal.pdict [])) ∧
    (∀ groups names, dictGet "all" groups = none → collectHostnames groups = .ok names →
      resolveAll groups = .ok (groups, PyVal.plist (dedupAppend [] names), PyVal.pdict [])) := by
  refine ⟨?_, ?_, ?_⟩
  · intro groups h d hget
    unfold resolveAll
    rw [hget]
  · intro groups v hget hnt
    unfold resolveAll
    rw [hget]
    cases v with
    | pstr s => rfl
    | pint n => rfl
    | plist items => rfl
    | pdict kvs => rfl
    | pnone => rfl
    | ptuple xs => exact absurd rfl (hnt xs)
  · intro groups names hget hc
    unfold resolveAll
    rw [hget]
    show (do
      let hs ← synthAllHosts groups []
      Except.ok (groups, PyVal.plist hs, PyVal.pdict [])) = _
    rw [synthAllHosts_spec groups [] names hc]
    rfl

/-- C1, witness: the group mapping g1 = [a, b], g2 = [b, c] with no explicit
group "all" synthesizes all = [a, b, c]. -/
theorem claim1_witness :
    resolveAll [("g1", .plist [.pstr "a", .pstr "b"]), ("g2", .plist [.pstr "b", .pstr "c"])] =
      .ok ([("g1", .plist [.pstr "a", .pstr "b"]), ("g2", .plist [.pstr "b", .pstr "c"])],
        .plist [.pstr "a", .pstr "b", .pstr "c"], .pdict []) :=
  claim1_resolve_all.2.2
    [("g1", .plist [.pstr "a", .pstr "b"]), ("g2", .plist [.pstr "b", .pstr "c"])]
    [.pstr "a", .pstr "b", .pstr "b", .pstr "c"] rfl rfl

/-- C8, witness: a well-formed binding is accepted and kept by the loader,
and the loader output is the filter of the accepted bindings. -/
theorem claim8_witness :
    _is_inventory_group "web" (.plist [.pstr "h"]) = .ok true ∧
    _get_groups_from_filename [("web", .plist [.pstr "h"]), ("x", .pint 3)] =
      .ok [("web", .plist [.pstr "h"])] ∧
    [("web", PyVal.plist [.pstr "h"]), ("x", PyVal.pint 3)].filter acceptsGroupB =
      [("web", PyVal.plist [.pstr "h"])] := by
  refine ⟨(claim8_amended.1 "web" (.plist [.pstr "h"])).mpr
    ⟨by decide, Or.inl ⟨[.pstr "h"], rfl, by simp [isStrOrTuple]⟩⟩, rfl, ?_⟩
  exact (claim8_amended.2 [("web", .plist [.pstr "h"]), ("x", .pint 3)] _ rfl).symm

theorem funcAddHosts_ok_iff (n : String) : ∀ (hosts : List PyVal) (acc : List String),
    (∃ r, funcAddHosts n hosts acc = .ok r) ↔ ∀ x ∈ hosts, validFuncHost x := by
  intro hosts
  induction hosts with
  | nil =>
    intro acc
    constructor
    · intro _ x hx; cases hx
    · intro _; exact ⟨acc, rfl⟩
  | cons h hs ih =>
    intro acc
    constructor
    · rintro ⟨r, hr⟩
      intro x hx
      rw [funcAddHosts] at hr
      cases x_cases : isStrOrTuple h with
      | false => rw [x_cases] at hr; cases hr
      | true =>
        rw [x_cases] at hr
        simp only [Bool.not_true] at hr
        cases hx with
        | head =>
          cases h with
          | pstr s => trivial
          | ptuple xs =>
            cases xs with
            | nil => cases hr
            | cons x0 xrest =>
              cases x0 with
              | pstr s => trivial
              | pint m => cases hr
              | plist l => cases hr
              | ptuple l => cases hr
              | pdict l => cases hr
              | pnone => cases hr
          | pint m => cases x_cases
          | plist l => cases x_cases
          | pdict l => cases x_cases
          | pnone => cases x_cases
        | tail _ hmem =>
          cases h with
          | pstr s => exact (ih _).mp ⟨r, hr⟩ x hmem
          | ptuple xs =>
            cases xs with
            | nil => cases hr
            | cons x0 xrest =>
              cases x0 with
              | pstr s => exact (ih _).mp ⟨r, hr⟩ x hmem
              | pint m => cases hr
              | plist l => cases hr
              | ptuple l => cases hr
              | pdict l => cases hr
              | pnone => cases hr
          | pint m => cases x_cases
          | plist l => cases x_cases
          | pdict l => cases x_cases
          | pnone => cases x_cases
    · intro hall
      have hh : validFuncHost h := hall h (by simp)
      have hrest : ∀ x ∈ hs, validFuncHost x := fun x hx => hall x (by simp [hx])
      cases h with
      | pstr s =>
        obtain ⟨r, hr⟩ := (ih (if s ∈ acc then acc else acc ++ [s])).mpr hrest
        exact ⟨r, by rw [funcAddHosts]; exact hr⟩
      | ptuple xs =>
        cases xs with
        | nil => exact absurd hh (by simp [validFuncHost])
        | cons x0 xrest =>
          cases x0 with
          | pstr s =>
            obtain ⟨r, hr⟩ := (ih (if s ∈ acc then acc else acc ++ [s])).mpr hrest
            exact ⟨r, by rw [funcAddHosts]; exact hr⟩
          | pint m => exact absurd hh (by simp [validFuncHost])
          | plist l => exact absurd hh (by simp [validFuncHost])
          | ptuple l => exact absurd hh (by simp [validFuncHost])
          | pdict l => exact absurd hh (by simp [validFuncHost])
          | pnone => exact absurd hh (by simp [validFuncHost])
      | pint m => exact absurd hh (by simp [validFuncHost])
      | plist l => exact absurd hh (by simp [validFuncHost])
      | pdict l => exact absurd hh (by simp [validFuncHost])
      | pnone => exact absurd hh (by simp [validFuncHost])


theorem validFuncGroup_iff (v : PyVal) :
    validFuncGroup v ↔ ∃ hosts data kvs hs, pyUnpackPair v = .ok (hosts, data) ∧
      data = PyVal.pdict kvs ∧ pyIter hosts = .ok hs ∧ ∀ x ∈ hs, validFuncHost x := by
  cases v with
  | ptuple xs =>
    match xs with
    | [] =>
      constructor
      · intro h; exact absurd h (by simp [validFuncGroup])
      · rintro ⟨hosts, data, kvs, hs, hp, -, -, -⟩; cases hp
    | [x] =>
      constructor
      · intro h; exact absurd h (by simp [validFuncGroup])
      · rintro ⟨hosts, data, kvs, hs, hp, -, -, -⟩; cases hp
    | [h0, d0] =>
      constructor
      · rintro ⟨⟨kvs, rfl⟩, hs, hiter, hvalid⟩
        exact ⟨h0, PyVal.pdict kvs, kvs, hs, rfl, rfl, hiter, hvalid⟩
      · rintro ⟨hosts, data, kvs, hs, hp, rfl, hiter, hvalid⟩
        injection hp with hp2
        injection hp2 with hp3 hp4
        subst hp3
        subst hp4
        exact ⟨⟨kvs, rfl⟩, hs, hiter, hvalid⟩
    | x :: y :: z :: rest =>
      constructor
      · intro h; exact absurd h (by simp [validFuncGroup])
      · rintro ⟨hosts, data, kvs, hs, hp, -, -, -⟩; cases hp
  | pstr s =>
    constructor
    · rintro ⟨hs, hiter, hvalid⟩
      exact ⟨PyVal.pstr s, PyVal.pdict [], [], hs, rfl, rfl, hiter, hvalid⟩
    · rintro ⟨hosts, data, kvs, hs, hp, rfl, hiter, hvalid⟩
      injection hp with hp2
      injection hp2 with hp3 hp4
      subst hp3
      exact ⟨hs, hiter, hvalid⟩
  | pint n =>
    constructor
    · rintro ⟨hs, hiter, hvalid⟩
      cases hiter
    · rintro ⟨hosts, data, kvs, hs, hp, rfl, hiter, hvalid⟩
      injection hp with hp2
      injection hp2 with hp3 hp4
      subst hp3
      cases hiter
  | plist l =>
    constructor
    · rintro ⟨hs, hiter, hvalid⟩
      exact ⟨PyVal.plist l, PyVal.pdict [], [], hs, rfl, rfl, hiter, hvalid⟩
    · rintro ⟨hosts, data, kvs, hs, hp, rfl, hiter, hvalid⟩
      injection hp with hp2
      injection hp2 with hp3 hp4
      subst hp3
      exact ⟨hs, hiter, hvalid⟩
  | pdict l =>
    constructor
    · rintro ⟨hs, hiter, hvalid⟩
      exact ⟨PyVal.pdict l, PyVal.pdict [], [], hs, rfl, rfl, hiter, hvalid⟩
    · rintro ⟨hosts, data, kvs, hs, hp, rfl, hiter, hvalid⟩
      injection hp with hp2
      injection hp2 with hp3 hp4
      subst hp3
      exact ⟨hs, hiter, hvalid⟩
  | pnone =>
    constructor
    · rintro ⟨hs, hiter, hvalid⟩
      cases hiter
    · rintro ⟨hosts, data, kvs, hs, hp, rfl, hiter, hvalid⟩
      injection hp with hp2
      injection hp2 with hp3 hp4
      subst hp3
      cases hiter

theorem funcGroupsLoop_ok_iff (n : String) : ∀ (gs : List (String × PyVal)) (acc : List String),
    (∃ r, funcGroupsLoop n gs acc = .ok r) ↔ ∀ e ∈ gs, validFuncGroup e.2 := by
  intro gs
  induction gs with
  | nil =>
    intro acc
    constructor
    · intro _ e he; cases he
    · intro _; exact ⟨(acc, []), rfl⟩
  | cons e rest ih =>
    intro acc
    obtain ⟨key, hv⟩ := e
    constructor
    · rintro ⟨r, hr⟩
      rw [funcGroupsLoop] at hr
      cases hp : pyUnpackPair hv with
      | error e3 => rw [hp] at hr; cases hr
      | ok pair =>
        obtain ⟨hosts, data⟩ := pair
        rw [hp] at hr
        have hr2 : (do
            let dataKvs ←
              match data with
              | PyVal.pdict kvs => Except.ok kvs
              | _ => Except.error (PyErr.typeErrorNonDictData n key)
            let hostsList ← pyIter hosts
            let acc2 ← funcAddHosts n hostsList acc
            let p ← funcGroupsLoop n rest acc2
            Except.ok (p.1, (key, PyVal.ptuple [hosts, PyVal.pdict dataKvs]) :: p.2)) =
            .ok r := hr
        cases data with
        | pstr s =>
          exact Except.noConfusion (show (Except.error (PyErr.typeErrorNonDictData n key) :
            Except PyErr (List String × List (String × PyVal))) = .ok r from hr2)
        | pint m =>
          exact Except.noConfusion (show (Except.error (PyErr.typeErrorNonDictData n key) :
            Except PyErr (List String × List (String × PyVal))) = .ok r from hr2)
        | plist l =>
          exact Except.noConfusion (show (Except.error (PyErr.typeErrorNonDictData n key) :
            Except PyErr (List String × List (String × PyVal))) = .ok r from hr2)
        | ptuple t =>
          exact Except.noConfusion (show (Except.error (PyErr.typeErrorNonDictData n key) :
            Except PyErr (List String × List (String × PyVal))) = .ok r from hr2)
        | pnone =>
          exact Except.noConfusion (show (Except.error (PyErr.typeErrorNonDictData n key) :
            Except PyErr (List String × List (String × PyVal))) = .ok r from hr2)
        | pdict kvs =>
          have hr3 : (do
              let hostsList ← pyIter hosts
              let acc2 ← funcAddHosts n hostsList acc
              let p ← funcGroupsLoop n rest acc2
              Except.ok (p.1, (key, PyVal.ptuple [hosts, PyVal.pdict kvs]) :: p.2)) =
              .ok r := hr2
          cases hl : pyIter hosts with
          | error e3 => rw [hl] at hr3; cases hr3
          | ok hostsList =>
            rw [hl] at hr3
            have hr4 : (do
                let acc2 ← funcAddHosts n hostsList acc
                let p ← funcGroupsLoop n rest acc2
                Except.ok (p.1, (key, PyVal.ptuple [hosts, PyVal.pdict kvs]) :: p.2)) =
                .ok r := hr3
            cases ha : funcAddHosts n hostsList acc with
            | error e3 => rw [ha] at hr4; cases hr4
            | ok acc2 =>
              rw [ha] at hr4
              have hr5 : (do
                  let p ← funcGroupsLoop n rest acc2
                  Except.ok (p.1, (key, PyVal.ptuple [hosts, PyVal.pdict kvs]) :: p.2)) =
                  .ok r := hr4
              cases hg : funcGroupsLoop n rest acc2 with
              | error e3 => rw [hg] at hr5; cases hr5
              | ok rr =>
                intro e2 he2
                cases he2 with
                | head =>
                  exact (validFuncGroup_iff hv).mpr ⟨hosts, PyVal.pdict kvs, kvs, hostsList,
                    hp, rfl, hl, (funcAddHosts_ok_iff n hostsList acc).mp ⟨acc2, ha⟩⟩
                | tail _ hmem => exact (ih acc2).mp ⟨rr, hg⟩ e2 hmem
    · intro hall
      have hh : validFuncGroup hv := hall (key, hv) (by simp)
      have hrest : ∀ e2 ∈ rest, validFuncGroup e2.2 := fun e2 he2 => hall e2 (by simp [he2])
      obtain ⟨hosts, data, kvs, hs2, hp, hdata, hiter, hvalid⟩ := (validFuncGroup_iff hv).mp hh
      obtain ⟨acc2, hadd⟩ := (funcAddHosts_ok_iff n hs2 acc).mpr hvalid
      obtain ⟨rr, hloop⟩ := (ih acc2).mpr hrest
      refine ⟨(rr.1, (key, PyVal.ptuple [hosts, PyVal.pdict kvs]) :: rr.2), ?_⟩
      rw [funcGroupsLoop, hp]
      subst hdata
      show (do
        let hostsList ← pyIter hosts
        let acc2 ← funcAddHosts n hostsList acc
        let p ← funcGroupsLoop n rest acc2
        Except.ok (p.1, (key, PyVal.ptuple [hosts, PyVal.pdict kvs]) :: p.2)) = _
      rw [hiter]
      show (do
        let acc2 ← funcAddHosts n hs2 acc
        let p ← funcGroupsLoop n rest acc2
        Except.ok (p.1, (key, PyVal.ptuple [hosts, PyVal.pdict kvs]) :: p.2)) = _
      rw [hadd]
      show (do
        let p ← funcGroupsLoop n rest acc2
        Except.ok (p.1, (key, PyVal.ptuple [hosts, PyVal.pdict kvs]) :: p.2)) = _
      rw [hloop]
      rfl

theorem pyUnpackPair_error {v : PyVal} {e : PyErr} (h : pyUnpackPair v = .error e) :
    e = .valueError := by
  cases v with
  | ptuple xs =>
    match xs, h with
    | [], h => injection h with h2; exact h2.symm
    | [x], h => injection h with h2; exact h2.symm
    | [x, y], h => cases h
    | x :: y :: z :: w, h => injection h with h2; exact h2.symm
  | pstr s => cases h
  | pint m => cases h
  | plist l => cases h
  | pdict l => cases h
  | pnone => cases h

theorem pyIter_error {v : PyVal} {e : PyErr} (h : pyIter v = .error e) : e = .notIterable := by
  cases v with
  | pint m => injection h with h2; exact h2.symm
  | pnone => injection h with h2; exact h2.symm
  | pstr s => cases h
  | plist l => cases h
  | ptuple l => cases h
  | pdict l => cases h

theorem funcAddHosts_error (n : String) : ∀ (hosts : List PyVal) (acc : List String) (e : PyErr),
    funcAddHosts n hosts acc = .error e → errFromFunc n e := by
  intro hosts
  induction hosts with
  | nil => intro acc e h; cases h
  | cons h hs ih =>
    intro acc e hr
    rw [funcAddHosts] at hr
    cases h with
    | pstr s => exact ih _ e hr
    | pint m => injection hr with h2; subst h2; rfl
    | plist l => injection hr with h2; subst h2; rfl
    | pdict l => injection hr with h2; subst h2; rfl
    | pnone => injection hr with h2; subst h2; rfl
    | ptuple xs =>
      match xs, hr with
      | [], hr => injection hr with h2; subst h2; trivial
      | x :: xrest, hr =>
        match x, hr with
        | .pstr s, hr => exact ih _ e hr
        | .pint m, hr => injection hr with h2; subst h2; rfl
        | .plist l, hr => injection hr with h2; subst h2; rfl
        | .ptuple l, hr => injection hr with h2; subst h2; rfl
        | .pdict l, hr => injection hr with h2; subst h2; rfl
        | .pnone, hr => injection hr with h2; subst h2; rfl

theorem funcGroupsLoop_error (n : String) : ∀ (gs : List (String × PyVal)) (acc : List String)
    (e : PyErr), funcGroupsLoop n gs acc = .error e → errFromFunc n e := by
  intro gs
  induction gs with
  | nil => intro acc e h; cases h
  | cons ent rest ih =>
    intro acc e hr
    obtain ⟨key, hv⟩ := ent
    rw [funcGroupsLoop] at hr
    cases hp : pyUnpackPair hv with
    | error e3 =>
      rw [hp] at hr
      have h4 : (Except.error e3 : Except PyErr (List String × List (String × PyVal))) =
        .error e := hr
      injection h4 with h2
      subst h2
      rw [pyUnpackPair_error hp]
      trivial
    | ok pair =>
      obtain ⟨hosts, data⟩ := pair
      rw [hp] at hr
      have hr2 : (do
          let dataKvs ←
            match data with
            | PyVal.pdict kvs => Except.ok kvs
            | _ => Except.error (PyErr.typeErrorNonDictData n key)
          let hostsList ← pyIter hosts
          let acc2 ← funcAddHosts n hostsList acc
          let p ← funcGroupsLoop n rest acc2
          Except.ok (p.1, (key, PyVal.ptuple [hosts, PyVal.pdict dataKvs]) :: p.2)) =
          .error e := hr
      cases data with
      | pstr s =>
        injection (show (Except.error (PyErr.typeErrorNonDictData n key) :
          Except PyErr (List String × List (String × PyVal))) = .error e from hr2) with h2
        subst h2; rfl
      | pint m =>
        injection (show (Except.error (PyErr.typeErrorNonDictData n key) :
          Except PyErr (List String × List (String × PyVal))) = .error e from hr2) with h2
        subst h2; rfl
      | plist l =>
        injection (show (Except.error (PyErr.typeErrorNonDictData n key) :
          Except PyErr (List String × List (String × PyVal))) = .error e from hr2) with h2
        subst h2; rfl
      | ptuple t =>
        injection (show (Except.error (PyErr.typeErrorNonDictData n key) :
          Except PyErr (List String × List (String × PyVal))) = .error e from hr2) with h2
        subst h2; rfl
      | pnone =>
        injection (show (Except.error (PyErr.typeErrorNonDictData n key) :
          Except PyErr (List String × List (String × PyVal))) = .error e from hr2) with h2
        subst h2; rfl
      | pdict kvs =>
        have hr3 : (do
            let hostsList ← pyIter hosts
            let acc2 ← funcAddHosts n hostsList acc
            let p ← funcGroupsLoop n rest acc2
            Except.ok (p.1, (key, PyVal.ptuple [hosts, PyVal.pdict kvs]) :: p.2)) =
            .error e := hr2
        cases hl : pyIter hosts with
        | error e3 =>
          rw [hl] at hr3
          injection (show (Except.error e3 :
            Except PyErr (List String × List (String × PyVal))) = .error e from hr3) with h2
          subst h2
          rw [pyIter_error hl]
          trivial
        | ok hostsList =>
          rw [hl] at hr3
          have hr4 : (do
              let acc2 ← funcAddHosts n hostsList acc
              let p ← funcGroupsLoop n rest acc2
              Except.ok (p.1, (key, PyVal.ptuple [hosts, PyVal.pdict kvs]) :: p.2)) =
              .error e := hr3
          cases ha : funcAddHosts n hostsList acc with
          | error e3 =>
            rw [ha] at hr4
            injection (show (Except.error e3 :
              Except PyErr (List String × List (String × PyVal))) = .error e from hr4) with h2
            subst h2
            exact funcAddHosts_error n hostsList acc e3 ha
          | ok acc2 =>
            rw [ha] at hr4
            have hr5 : (do
                let p ← funcGroupsLoop n rest acc2
                Except.ok (p.1, (key, PyVal.ptuple [hosts, PyVal.pdict kvs]) :: p.2)) =
                .error e := hr4
            cases hg : funcGroupsLoop n rest acc2 with
            | error e3 =>
              rw [hg] at hr5
              injection (show (Except.error e3 :
                Except PyErr (List String × List (String × PyVal))) = .error e from hr5) with h2
              subst h2
              exact ih acc2 e3 hg
            | ok rr =>
              rw [hg] at hr5
              cases (show (Except.ok (rr.1, (key, PyVal.ptuple [hosts, PyVal.pdict kvs]) :: rr.2) :
                Except PyErr (List String × List (String × PyVal))) = .error e from hr5)

/-- C6, amended: make_inventory_from_func succeeds exactly on valid
resolvers - the function returns a dictionary whose every group is a pair
of an iterable of string-reducible hosts and a dictionary, or a non-tuple
iterable of such hosts; it aborts when the function raises, returns a
non-mapping, a group tuple is not a pair, a group data component is not a
mapping, a hosts value is not iterable, a host is neither string nor tuple,
a host tuple is empty, or a host tuple head is not a string. Every
structured type error carries the identity of the function; the bare unpack
ValueError, host IndexError and iteration TypeError carry none. -/
theorem claim6_amended : ∀ (f : PyFunc) (od : Option (List (String × PyVal))),
    ((∃ inv, make_inventory_from_func f od = .ok inv) ↔ validResolver f) ∧
    (∀ e, make_inventory_from_func f od = .error e → errFromFunc f.name e) := by
  intro f od
  constructor
  · constructor
    · rintro ⟨inv, hinv⟩
      unfold make_inventory_from_func at hinv
      cases hc : f.call with
      | error e2 =>
        rw [hc] at hinv
        exact Except.noConfusion (show (Except.error (PyErr.cliErrorLoadFunc f.name e2) :
          Except PyErr Inventory) = .ok inv from hinv)
      | ok v =>
        rw [hc] at hinv
        cases v with
        | pstr s =>
          exact Except.noConfusion (show (Except.error (PyErr.typeErrorNonDictReturn f.name) :
            Except PyErr Inventory) = .ok inv from hinv)
        | pint m =>
          exact Except.noConfusion (show (Except.error (PyErr.typeErrorNonDictReturn f.name) :
            Except PyErr Inventory) = .ok inv from hinv)
        | plist l =>
          exact Except.noConfusion (show (Except.error (PyErr.typeErrorNonDictReturn f.name) :
            Except PyErr Inventory) = .ok inv from hinv)
        | ptuple t =>
          exact Except.noConfusion (show (Except.error (PyErr.typeErrorNonDictReturn f.name) :
            Except PyErr Inventory) = .ok inv from hinv)
        | pnone =>
          exact Except.noConfusion (show (Except.error (PyErr.typeErrorNonDictReturn f.name) :
            Except PyErr Inventory) = .ok inv from hinv)
        | pdict gs =>
          have hinv2 : (do
              let p ← funcGroupsLoop f.name gs []
              Except.ok (Inventory.mk
                (PyVal.ptuple [PyVal.plist (p.1.map PyVal.pstr), PyVal.pdict []]) od p.2)) =
              (Except.ok inv : Except PyErr Inventory) := hinv
          cases hg : funcGroupsLoop f.name gs [] with
          | error e3 =>
            rw [hg] at hinv2
            cases hinv2
          | ok r =>
            exact ⟨gs, hc, (funcGroupsLoop_ok_iff f.name gs []).mp ⟨r, hg⟩⟩
    · rintro ⟨gs, hcall, hvalid⟩
      obtain ⟨r, hr⟩ := (funcGroupsLoop_ok_iff f.name gs []).mpr hvalid
      refine ⟨Inventory.mk
        (PyVal.ptuple [PyVal.plist (r.1.map PyVal.pstr), PyVal.pdict []]) od r.2, ?_⟩
      unfold make_inventory_from_func
      rw [hcall]
      show (do
        let p ← funcGroupsLoop f.name gs []
        Except.ok (Inventory.mk
          (PyVal.ptuple [PyVal.plist (p.1.map PyVal.pstr), PyVal.pdict []]) od p.2)) = _
      rw [hr]
      rfl
  · intro e he
    unfold make_inventory_from_func at he
    cases hc : f.call with
    | error e2 =>
      rw [hc] at he
      injection (show (Except.error (PyErr.cliErrorLoadFunc f.name e2) :
        Except PyErr Inventory) = .error e from he) with h2
      subst h2; rfl
    | ok v =>
      rw [hc] at he
      cases v with
      | pstr s =>
        injection (show (Except.error (PyErr.typeErrorNonDictReturn f.name) :
          Except PyErr Inventory) = .error e from he) with h2
        subst h2; rfl
      | pint m =>
        injection (show (Except.error (PyErr.typeErrorNonDictReturn f.name) :
          Except PyErr Inventory) = .error e from he) with h2
        subst h2; rfl
      | plist l =>
        injection (show (Except.error (PyErr.typeErrorNonDictReturn f.name) :
          Except PyErr Inventory) = .error e from he) with h2
        subst h2; rfl
      | ptuple t =>
        injection (show (Except.error (PyErr.typeErrorNonDictReturn f.name) :
          Except PyErr Inventory) = .error e from he) with h2
        subst h2; rfl
      | pnone =>
        injection (show (Except.error (PyErr.typeErrorNonDictReturn f.name) :
          Except PyErr Inventory) = .error e from he) with h2
        subst h2; rfl
      | pdict gs =>
        have he2 : (do
            let p ← funcGroupsLoop f.name gs []
            Except.ok (Inventory.mk
              (PyVal.ptuple [PyVal.plist (p.1.map PyVal.pstr), PyVal.pdict []]) od p.2)) =
            (Except.error e : Except PyErr Inventory) := he
        cases hg : funcGroupsLoop f.name gs [] with
        | error e3 =>
          rw [hg] at he2
          injection (show (Except.error e3 : Except PyErr Inventory) = .error e from he2) with h2
          subst h2
          exact funcGroupsLoop_error f.name gs [] e3 hg
        | ok r =>
          rw [hg] at he2
          cases (show (Except.ok (Inventory.mk
            (PyVal.ptuple [PyVal.plist (r.1.map PyVal.pstr), PyVal.pdict []]) od r.2) :
            Except PyErr Inventory) = .error e from he2)

/-- C6, counterexample: the resolver returning the mapping g = 5 avoids all
four claimed fatal cases - it does not raise, returns a mapping, its group
data component defaults to a mapping, and it has no host elements - yet the
code aborts with a TypeError when iterating the group value. -/
theorem claim6_counterexample :
    make_inventory_from_func funcBadGroup none = .error .notIterable ∧
    ¬ claimFourFatal funcBadGroup := by
  refine ⟨rfl, ?_⟩
  rintro (⟨e, h⟩ | ⟨v, h, hv⟩ | ⟨gs, h, ent, hent, h1, d, heq, hnd⟩ | ⟨gs, h, ent, hent, x, hx, hred⟩)
  · cases h
  · injection h with h2
    exact hv [("g", PyVal.pint 5)] h2.symm
  · injection h with h2
    injection h2 with h3
    subst h3
    simp only [List.mem_singleton] at hent
    subst hent
    cases heq
  · injection h with h2
    injection h2 with h3
    subst h3
    simp only [List.mem_singleton] at hent
    subst hent
    simp [hostsComponent, elemsOf, pyIter] at hx

/-- C6, witness: the valid web resolver satisfies the success side of the
characterization. -/
theorem claim6_witness :
    ∃ inv, make_inventory_from_func funcWeb none = .ok inv :=
  (claim6_amended funcWeb none).1.mpr
    ⟨[("web", .ptuple [.plist [.pstr "h1", .pstr "h2"], .pdict [("port", .pint 80)]])], rfl,
      by
        intro e he
        simp only [List.mem_singleton] at he
        subst he
        exact ⟨⟨_, rfl⟩, [.pstr "h1", .pstr "h2"], rfl, by
          intro x hx
          simp only [List.mem_cons, List.mem_singleton, List.not_mem_nil, or_false] at hx
          rcases hx with rfl | rfl
          · trivial
          · trivial⟩⟩

theorem nodup_append_singleton {l : List String} {a : String} (h : l.Nodup) (ha : a ∉ l) :
    (l ++ [a]).Nodup := by
  rw [List.nodup_append]
  refine ⟨h, List.nodup_singleton a, ?_⟩
  intro x hx hx'
  simp only [List.mem_singleton] at hx'
  subst hx'
  exact ha hx

theorem pyUnpackPair_components {v h d : PyVal} (hp : pyUnpackPair v = .ok (h, d)) :
    hostsComponent v = h ∧ dataComponent v = d := by
  cases v with
  | ptuple xs =>
    match xs, hp with
    | [x, y], hp =>
      injection hp with hp2
      injection hp2 with hp3 hp4
      exact ⟨hp3, hp4⟩
  | pstr s =>
    injection hp with hp2
    injection hp2 with hp3 hp4
    exact ⟨hp3, hp4⟩
  | pint m =>
    injection hp with hp2
    injection hp2 with hp3 hp4
    exact ⟨hp3, hp4⟩
  | plist l =>
    injection hp with hp2
    injection hp2 with hp3 hp4
    exact ⟨hp3, hp4⟩
  | pdict l =>
    injection hp with hp2
    injection hp2 with hp3 hp4
    exact ⟨hp3, hp4⟩
  | pnone =>
    injection hp with hp2
    injection hp2 with hp3 hp4
    exact ⟨hp3, hp4⟩

theorem funcAddHosts_ok_spec (n : String) : ∀ (hosts : List PyVal) (acc acc2 : List String),
    funcAddHosts n hosts acc = .ok acc2 →
    (∀ s, s ∈ acc2 ↔ s ∈ acc ∨ ∃ x ∈ hosts, _get_any_tuple_first x = .ok (.pstr s)) ∧
    (acc.Nodup → acc2.Nodup) := by
  intro hosts
  induction hosts with
  | nil =>
    intro acc acc2 h
    injection h with h2
    subst h2
    exact ⟨fun s => by simp, id⟩
  | cons h hs ih =>
    intro acc acc2 hr
    rw [funcAddHosts] at hr
    have main : ∀ s0 : String, _get_any_tuple_first h = .ok (.pstr s0) →
        funcAddHosts n hs (if s0 ∈ acc then acc else acc ++ [s0]) = .ok acc2 →
        (∀ s, s ∈ acc2 ↔ s ∈ acc ∨ ∃ x ∈ h :: hs, _get_any_tuple_first x = .ok (.pstr s)) ∧
        (acc.Nodup → acc2.Nodup) := by
      intro s0 hfirst hrec
      obtain ⟨hmem, hnd⟩ := ih _ acc2 hrec
      constructor
      · intro s
        rw [hmem s]
        constructor
        · rintro (hacc | ⟨x, hx, hred⟩)
          · by_cases hs0 : s0 ∈ acc
            · rw [if_pos hs0] at hacc
              exact Or.inl hacc
            · rw [if_neg hs0] at hacc
              rcases List.mem_append.mp hacc with h1 | h1
              · exact Or.inl h1
              · simp only [List.mem_singleton] at h1
                subst h1
                exact Or.inr ⟨h, List.mem_cons_self h hs, hfirst⟩
          · exact Or.inr ⟨x, List.mem_cons_of_mem h hx, hred⟩
        · rintro (hacc | ⟨x, hx, hred⟩)
          · left
            by_cases hs0 : s0 ∈ acc
            · rw [if_pos hs0]; exact hacc
            · rw [if_neg hs0]; exact List.mem_append.mpr (Or.inl hacc)
          · rcases List.mem_cons.mp hx with rfl | hx2
            · left
              rw [hfirst] at hred
              injection hred with h3
              injection h3 with h4
              by_cases hs0 : s0 ∈ acc
              · rw [if_pos hs0]; rw [← h4]; exact hs0
              · rw [if_neg hs0]
                exact List.mem_append.mpr (Or.inr (by simp [h4]))
            · exact Or.inr ⟨x, hx2, hred⟩
      · intro hnda
        apply hnd
        by_cases hs0 : s0 ∈ acc
        · rw [if_pos hs0]; exact hnda
        · rw [if_neg hs0]; exact nodup_append_singleton hnda hs0
    cases h with
    | pstr s0 => exact main s0 rfl hr
    | pint m => cases hr
    | plist l => cases hr
    | pdict l => cases hr
    | pnone => cases hr
    | ptuple xs =>
      match xs, hr with
      | [], hr => cases hr
      | x :: xrest, hr =>
        match x, hr with
        | .pstr s0, hr => exact main s0 rfl hr
        | .pint m, hr => cases hr
        | .plist l, hr => cases hr
        | .ptuple l, hr => cases hr
        | .pdict l, hr => cases hr
        | .pnone, hr => cases hr

theorem funcGroupsLoop_ok_spec (n : String) : ∀ (gs : List (String × PyVal))
    (acc accF : List String) (gwd : List (String × PyVal)),
    funcGroupsLoop n gs acc = .ok (accF, gwd) →
    gwd = gs.map funcEntryNorm ∧
    (∀ s, s ∈ accF ↔ s ∈ acc ∨ ∃ e ∈ gs, ∃ x ∈ elemsOf (hostsComponent e.2),
      _get_any_tuple_first x = .ok (.pstr s)) ∧
    (acc.Nodup → accF.Nodup) := by
  intro gs
  induction gs with
  | nil =>
    intro acc accF gwd h
    injection h with h2
    injection h2 with h3 h4
    subst h3
    subst h4
    exact ⟨rfl, fun s => by simp, id⟩
  | cons ent rest ih =>
    intro acc accF gwd hr
    obtain ⟨key, hv⟩ := ent
    rw [funcGroupsLoop] at hr
    cases hp : pyUnpackPair hv with
    | error e3 => rw [hp] at hr; cases hr
    | ok pair =>
      obtain ⟨hosts, data⟩ := pair
      rw [hp] at hr
      have hr2 : (do
          let dataKvs ←
            match data with
            | PyVal.pdict kvs => Except.ok kvs
            | _ => Except.error (PyErr.typeErrorNonDictData n key)
          let hostsList ← pyIter hosts
          let acc2 ← funcAddHosts n hostsList acc
          let p ← funcGroupsLoop n rest acc2
          Except.ok (p.1, (key, PyVal.ptuple [hosts, PyVal.pdict dataKvs]) :: p.2)) =
          .ok (accF, gwd) := hr
      obtain ⟨hch, hcd⟩ := pyUnpackPair_components hp
      cases data with
      | pstr s => cases hr2
      | pint m => cases hr2
      | plist l => cases hr2
      | ptuple t => cases hr2
      | pnone => cases hr2
      | pdict kvs =>
        have hr3 : (do
            let hostsList ← pyIter hosts
            let acc2 ← funcAddHosts n hostsList acc
            let p ← funcGroupsLoop n rest acc2
            Except.ok (p.1, (key, PyVal.ptuple [hosts, PyVal.pdict kvs]) :: p.2)) =
            .ok (accF, gwd) := hr2
        cases hl : pyIter hosts with
        | error e3 => rw [hl] at hr3; cases hr3
        | ok hostsList =>
          rw [hl] at hr3
          have hr4 : (do
              let acc2 ← funcAddHosts n hostsList acc
              let p ← funcGroupsLoop n rest acc2
              Except.ok (p.1, (key, PyVal.ptuple [hosts, PyVal.pdict kvs]) :: p.2)) =
              .ok (accF, gwd) := hr3
          cases ha : funcAddHosts n hostsList acc with
          | error e3 => rw [ha] at hr4; cases hr4
          | ok acc2 =>
            rw [ha] at hr4
            have hr5 : (do
                let p ← funcGroupsLoop n rest acc2
                Except.ok (p.1, (key, PyVal.ptuple [hosts, PyVal.pdict kvs]) :: p.2)) =
                .ok (accF, gwd) := hr4
            cases hg : funcGroupsLoop n rest acc2 with
            | error e3 => rw [hg] at hr5; cases hr5
            | ok rr =>
              rw [hg] at hr5
              have hr6 : Except.ok (rr.1, (key, PyVal.ptuple [hosts, PyVal.pdict kvs]) :: rr.2) =
                (Except.ok (accF, gwd) :
                  Except PyErr (List String × List (String × PyVal))) := hr5
              injection hr6 with hr7
              injection hr7 with hr8 hr9
              subst hr8
              subst hr9
              obtain ⟨haddmem, haddnd⟩ := funcAddHosts_ok_spec n hostsList acc acc2 ha
              obtain ⟨ihmap, ihmem, ihnd⟩ := ih acc2 rr.1 rr.2 (by
                cases rr
                exact hg)
              have helems : elemsOf (hostsComponent hv) = hostsList := by
                rw [hch, elemsOf, hl]
              refine ⟨?_, ?_, ?_⟩
              · rw [ihmap]
                show ((key, PyVal.ptuple [hosts, PyVal.pdict kvs]) :
                  String × PyVal) :: _ = funcEntryNorm (key, hv) :: _
                rw [funcEntryNorm]
                rw [hch, hcd]
              · intro s
                rw [ihmem s, haddmem s]
                constructor
                · rintro ((hacc | ⟨x, hx, hred⟩) | ⟨e, he, x, hx, hred⟩)
                  · exact Or.inl hacc
                  · refine Or.inr ⟨(key, hv), List.mem_cons_self _ _, x, ?_, hred⟩
                    rw [helems]
                    exact hx
                  · exact Or.inr ⟨e, List.mem_cons_of_mem _ he, x, hx, hred⟩
                · rintro (hacc | ⟨e, he, x, hx, hred⟩)
                  · exact Or.inl (Or.inl hacc)
                  · rcases List.mem_cons.mp he with rfl | he2
                    · refine Or.inl (Or.inr ⟨x, ?_, hred⟩)
                      rw [helems] at hx
                      exact hx
                    · exact Or.inr ⟨e, he2, x, hx, hred⟩
              · intro hnda
                exact ihnd (haddnd hnda)

/-- C7: for a resolver returning a mapping and succeeding, the resulting
inventory keeps each returned group with its hosts value as returned and
its data mapping (empty when none was given), sets the supplied override
data, and its group "all" holds exactly the deduplicated set of every
normalized host name across all groups (membership characterized
order-independently) with empty data. -/
theorem claim7_func_inventory : ∀ (f : PyFunc) (od : Option (List (String × PyVal)))
    (gs : List (String × PyVal)) (inv : Inventory),
    f.call = .ok (.pdict gs) →
    make_inventory_from_func f od = .ok inv →
    inv.groups = gs.map funcEntryNorm ∧
    inv.overrideData = od ∧
    ∃ names : List String,
      inv.all = .ptuple [.plist (names.map PyVal.pstr), .pdict []] ∧ names.Nodup ∧
      (∀ s, s ∈ names ↔ ∃ e ∈ gs, ∃ x ∈ elemsOf (hostsComponent e.2),
        _get_any_tuple_first x = .ok (.pstr s)) := by
  intro f od gs inv hcall hok
  unfold make_inventory_from_func at hok
  rw [hcall] at hok
  have hok2 : (do
      let p ← funcGroupsLoop f.name gs []
      Except.ok (Inventory.mk
        (PyVal.ptuple [PyVal.plist (p.1.map PyVal.pstr), PyVal.pdict []]) od p.2)) =
      (Except.ok inv : Except PyErr Inventory) := hok
  cases hg : funcGroupsLoop f.name gs [] with
  | error e3 => rw [hg] at hok2; cases hok2
  | ok r =>
    rw [hg] at hok2
    have hok3 : Except.ok (Inventory.mk
        (PyVal.ptuple [PyVal.plist (r.1.map PyVal.pstr), PyVal.pdict []]) od r.2) =
        (Except.ok inv : Except PyErr Inventory) := hok2
    injection hok3 with hok4
    subst hok4
    obtain ⟨hmap, hmem, hnd⟩ := funcGroupsLoop_ok_spec f.name gs [] r.1 r.2 (by
      cases r
      exact hg)
    refine ⟨hmap, rfl, r.1, rfl, hnd (List.nodup_nil), ?_⟩
    intro s
    rw [hmem s]
    simp

/-- C7, witness: the web resolver of the specification scenario produces
group web with hosts [h1, h2] and data port = 80, and all = [h1, h2] with
empty data. -/
theorem claim7_witness :
    make_inventory_from_func funcWeb none =
      .ok { all := .ptuple [.plist [.pstr "h1", .pstr "h2"], .pdict []],
            overrideData := none,
            groups := [("web", .ptuple [.plist [.pstr "h1", .pstr "h2"],
              .pdict [("port", .pint 80)]])] } ∧
    [("web", PyVal.ptuple [.plist [.pstr "h1", .pstr "h2"],
      .pdict [("port", .pint 80)]])].map funcEntryNorm =
      [("web", PyVal.ptuple [.plist [.pstr "h1", .pstr "h2"],
        .pdict [("port", .pint 80)]])] := by
  constructor
  · rfl
  · exact (claim7_func_inventory funcWeb none
      [("web", PyVal.ptuple [.plist [.pstr "h1", .pstr "h2"], .pdict [("port", .pint 80)]])]
      { all := .ptuple [.plist [.pstr "h1", .pstr "h2"], .pdict []],
        overrideData := none,
        groups := [("web", .ptuple [.plist [.pstr "h1", .pstr "h2"],
          .pdict [("port", .pint 80)]])] } rfl rfl).1.symm

theorem dictGetD_set_self (k : String) (v : List (String × PyVal))
    (d : List (String × List (String × PyVal))) :
    dictGetD k (dictSetD k v d) = some v := by
  induction d with
  | nil => simp [dictSetD, dictGetD]
  | cons e rest ih =>
    by_cases h : e.1 = k
    · simp [dictSetD, dictGetD, h]
    · simp [dictSetD, dictGetD, h, ih]

theorem dictGetD_set_ne {k k' : String} (h : k' ≠ k) (v : List (String × PyVal))
    (d : List (String × List (String × PyVal))) :
    dictGetD k (dictSetD k' v d) = dictGetD k d := by
  induction d with
  | nil => simp [dictSetD, dictGetD, h]
  | cons e rest ih =>
    by_cases he : e.1 = k'
    · have : ¬ (k' = k) := h
      simp [dictSetD, dictGetD, he, this, ih]
    · by_cases hek : e.1 = k
      · have h2 : ¬ (k = k') := fun hc => h hc.symm
        simp [dictSetD, dictGetD, he, hek, h2]
      · simp [dictSetD, dictGetD, he, hek, ih]

theorem dictGetD_pop_ne {k k' : String} (h : k ≠ k')
    (d : List (String × List (String × PyVal))) :
    dictGetD k (dictPopD k' d) = dictGetD k d := by
  induction d with
  | nil => simp [dictPopD, dictGetD]
  | cons e rest ih =>
    by_cases he : e.1 = k'
    · have h2 : ¬ (k' = k) := fun hc => h hc.symm
      simpa [dictPopD, dictGetD, he, h2] using ih
    · by_cases hek : e.1 = k
      · simp [dictPopD, List.filter, dictGetD, he, hek, h]
      · simpa [dictPopD, List.filter, dictGetD, he, hek] using ih

theorem dictGetD_eq_none_iff (k : String) (d : List (String × List (String × PyVal))) :
    dictGetD k d = none ↔ ∀ e ∈ d, e.1 ≠ k := by
  induction d with
  | nil => simp [dictGetD]
  | cons e rest ih =>
    by_cases h : e.1 = k
    · simp [dictGetD, h]
    · simp [dictGetD, h, ih]

theorem dictGet_update (k : String) : ∀ (e d : List (String × PyVal)),
    (e.map Prod.fst).Nodup →
    dictGet k (dictUpdate d e) =
      match dictGet k e with
      | some v => some v
      | none => dictGet k d := by
  intro e
  induction e with
  | nil => intro d _; simp [dictUpdate, dictGet]
  | cons kv rest ih =>
    intro d hnd
    obtain ⟨k1, v1⟩ := kv
    rw [dictUpdate]
    simp only [List.map_cons, List.nodup_cons] at hnd
    obtain ⟨hk1, hndrest⟩ := hnd
    rw [ih (dictSet k1 v1 d) hndrest]
    by_cases hk : k1 = k
    · subst hk
      have hnone : dictGet k1 rest = none := (dictGet_eq_none_iff k1 rest).mpr
        (fun e2 he2 hc => hk1 (hc ▸ List.mem_map_of_mem Prod.fst he2))
      rw [hnone, dictGet]
      simp [dictGet_set_self]
    · rw [dictGet]
      rw [if_neg hk]
      rw [dictGet_set_ne hk]

theorem lastWins_append (g k : String) : ∀ (xs ys : List (String × List (String × PyVal))),
    lastWins g k (xs ++ ys) =
      match lastWins g k ys with
      | some v => some v
      | none => lastWins g k xs := by
  intro xs ys
  induction xs with
  | nil =>
    cases h : lastWins g k ys with
    | some v => simp [h]
    | none => simp [h, lastWins]
  | cons e rest ih =>
    show lastWins g k (e :: (rest ++ ys)) = _
    rw [lastWins, ih]
    cases h : lastWins g k ys with
    | some v => rfl
    | none =>
      cases h2 : lastWins g k rest with
      | some v => rw [lastWins, h2]
      | none => rw [lastWins, h2]

theorem accFolder_get2 : ∀ (entries acc : List (String × List (String × PyVal))) (g k : String),
    (∀ e ∈ entries, (e.2.map Prod.fst).Nodup) →
    dictGet2 (accFolder entries acc) g k =
      match lastWins g k entries with
      | some v => some v
      | none => dictGet2 acc g k := by
  intro entries
  induction entries with
  | nil => intro acc g k _; simp [accFolder, lastWins]
  | cons e rest ih =>
    intro acc g k hnd
    obtain ⟨gname, data⟩ := e
    rw [accFolder]
    have hdata : (data.map Prod.fst).Nodup := hnd (gname, data) (List.mem_cons_self _ _)
    have hrest : ∀ e2 ∈ rest, (e2.2.map Prod.fst).Nodup :=
      fun e2 he2 => hnd e2 (List.mem_cons_of_mem _ he2)
    rw [ih _ g k hrest, lastWins]
    cases hlw : lastWins g k rest with
    | some v => rfl
    | none =>
      by_cases hg : gname = g
      · subst hg
        rw [if_pos rfl]
        rw [dictGet2, dictGetD_set_self]
        show dictGet k (dictUpdate ((dictGetD gname acc).getD []) data) = _
        rw [dictGet_update k data _ hdata]
        cases hd : dictGet k data with
        | some v => rfl
        | none =>
          rw [dictGet2]
          cases hacc : dictGetD gname acc with
          | some m => simp
          | none => simp [dictGet]
      · rw [if_neg hg]
        rw [dictGet2, dictGetD_set_ne (show gname ≠ g from hg)]
        rfl

theorem accGroupData_get2 (gdOf : String → List (String × List (String × PyVal))) :
    ∀ (folders : List String) (acc : List (String × List (String × PyVal))) (g k : String),
    (∀ f ∈ folders, ∀ e ∈ gdOf f, (e.2.map Prod.fst).Nodup) →
    dictGet2 (accGroupData gdOf folders acc) g k =
      match lastWins g k (foldersData gdOf folders) with
      | some v => some v
      | none => dictGet2 acc g k := by
  intro folders
  induction folders with
  | nil => intro acc g k _; simp [accGroupData, foldersData, lastWins]
  | cons f fs ih =>
    intro acc g k hnd
    rw [accGroupData]
    rw [ih _ g k (fun f2 hf2 => hnd f2 (List.mem_cons_of_mem _ hf2))]
    rw [foldersData, lastWins_append]
    cases h1 : lastWins g k (foldersData gdOf fs) with
    | some v => rfl
    | none =>
      rw [accFolder_get2 (gdOf f) acc g k (hnd f (List.mem_cons_self _ _))]

theorem exMapM_congr {α β : Type} {f g : α → Except PyErr β} : ∀ (l : List α),
    (∀ x ∈ l, f x = g x) → exMapM f l = exMapM g l := by
  intro l
  induction l with
  | nil => intro _; rfl
  | cons x xs ih =>
    intro h
    rw [exMapM, exMapM, h x (List.mem_cons_self _ _), ih (fun y hy => h y (List.mem_cons_of_mem _ hy))]

theorem mergeEntrySpec_congr {gd gd2 : List (String × List (String × PyVal))}
    (e : String × PyVal) (h : dictGetD e.1 gd2 = dictGetD e.1 gd) :
    mergeEntrySpec gd2 e = mergeEntrySpec gd e := by
  obtain ⟨name, hv⟩ := e
  rw [mergeEntrySpec, mergeEntrySpec]
  cases hp : pyUnpackPair hv with
  | error e2 => rfl
  | ok pair =>
    obtain ⟨hosts, data⟩ := pair
    clear hp
    show (match dictGetD name gd2 with
      | some extra =>
        match data with
        | PyVal.pdict kvs =>
          Except.ok (name, PyVal.ptuple [hosts, PyVal.pdict (dictUpdate kvs extra)])
        | _ => Except.error PyErr.attributeError
      | none => Except.ok (name, PyVal.ptuple [hosts, data])) =
      (match dictGetD name gd with
      | some extra =>
        match data with
        | PyVal.pdict kvs =>
          Except.ok (name, PyVal.ptuple [hosts, PyVal.pdict (dictUpdate kvs extra)])
        | _ => Except.error PyErr.attributeError
      | none => Except.ok (name, PyVal.ptuple [hosts, data]))
    exact congrArg (fun o : Option (List (String × PyVal)) =>
      match o with
      | some extra =>
        match data with
        | PyVal.pdict kvs =>
          Except.ok (name, PyVal.ptuple [hosts, PyVal.pdict (dictUpdate kvs extra)])
        | _ => Except.error PyErr.attributeError
      | none => Except.ok (name, PyVal.ptuple [hosts, data])) h

theorem mergeGroupData_spec : ∀ (groups : List (String × PyVal))
    (gd : List (String × List (String × PyVal))),
    (groups.map Prod.fst).Nodup →
    mergeGroupData gd groups =
      (do
        let m ← exMapM (mergeEntrySpec gd) groups
        Except.ok (m, gd.filter (fun e => !(decide (e.1 ∈ groups.map Prod.fst))))) := by
  intro groups
  induction groups with
  | nil =>
    intro gd _
    show Except.ok ([], gd) = Except.ok (([] : List (String × PyVal)),
      gd.filter (fun e => !(decide (e.1 ∈ ([] : List String)))))
    simp
  | cons ent rest ih =>
    intro gd hnd
    obtain ⟨name, hv⟩ := ent
    simp only [List.map_cons, List.nodup_cons] at hnd
    obtain ⟨hname, hndrest⟩ := hnd
    have hcongrPop : exMapM (mergeEntrySpec (dictPopD name gd)) rest =
        exMapM (mergeEntrySpec gd) rest := by
      apply exMapM_congr
      intro e2 he2
      apply mergeEntrySpec_congr
      apply dictGetD_pop_ne
      intro hc
      exact hname (hc ▸ List.mem_map_of_mem Prod.fst he2)
    have hfilterPop : (dictPopD name gd).filter
        (fun e => !(decide (e.1 ∈ rest.map Prod.fst))) =
        gd.filter (fun e => !(decide (e.1 ∈ name :: rest.map Prod.fst))) := by
      rw [dictPopD, List.filter_filter]
      apply List.filter_congr
      intro e2 _
      simp only [List.mem_cons, decide_not]
      cases he : decide (e2.1 = name) with
      | true =>
        simp only [decide_eq_true_eq] at he
        simp [he]
      | false =>
        simp only [decide_eq_false_iff_not] at he
        simp [he]
    rw [mergeGroupData]
    rw [exMapM]
    rw [mergeEntrySpec]
    cases hp : pyUnpackPair hv with
    | error e2 => rfl
    | ok pair =>
      obtain ⟨hosts, data⟩ := pair
      clear hp
      cases hgd : dictGetD name gd with
      | some extra =>
        cases data with
        | pstr s => rfl
        | pint m => rfl
        | plist l => rfl
        | ptuple t => rfl
        | pnone => rfl
        | pdict kvs =>
          show (do
            let q ← mergeGroupData (dictPopD name gd) rest
            Except.ok (((name, PyVal.ptuple [hosts, PyVal.pdict (dictUpdate kvs extra)]) :
              String × PyVal) :: q.1, q.2)) =
            (do
              let m ← (do
                let ys ← exMapM (mergeEntrySpec gd) rest
                Except.ok (((name, PyVal.ptuple [hosts, PyVal.pdict (dictUpdate kvs extra)]) :
                  String × PyVal) :: ys))
              Except.ok (m, gd.filter (fun e => !(decide (e.1 ∈ name :: rest.map Prod.fst)))))
          rw [ih (dictPopD name gd) hndrest, hcongrPop, hfilterPop]
          cases hm : exMapM (mergeEntrySpec gd) rest with
          | error e2 => rfl
          | ok ms => rfl
      | none =>
        have hfilterNone : gd.filter (fun e => !(decide (e.1 ∈ rest.map Prod.fst))) =
            gd.filter (fun e => !(decide (e.1 ∈ name :: rest.map Prod.fst))) := by
          apply List.filter_congr
          intro e2 he2
          have hne : e2.1 ≠ name := (dictGetD_eq_none_iff name gd).mp hgd e2 he2
          simp only [List.mem_cons, decide_not]
          cases he : decide (e2.1 ∈ rest.map Prod.fst) with
          | true =>
            simp only [decide_eq_true_eq] at he
            simp [he]
          | false =>
            simp only [decide_eq_false_iff_not] at he
            simp [he, hne]
        show (do
          let q ← mergeGroupData gd rest
          Except.ok (((name, PyVal.ptuple [hosts, data]) : String × PyVal) :: q.1, q.2)) =
          (do
            let m ← (do
              let ys ← exMapM (mergeEntrySpec gd) rest
              Except.ok (((name, PyVal.ptuple [hosts, data]) : String × PyVal) :: ys))
            Except.ok (m, gd.filter (fun e => !(decide (e.1 ∈ name :: rest.map Prod.fst)))))
        rw [ih gd hndrest, hfilterNone]
        cases hm : exMapM (mergeEntrySpec gd) rest with
        | error e2 => rfl
        | ok ms => rfl

theorem addLeftoverGroups_spec : ∀ (rem : List (String × List (String × PyVal)))
    (groups : List (String × PyVal)),
    (∀ e ∈ rem, dictGet e.1 groups = none) → (rem.map Prod.fst).Nodup →
    addLeftoverGroups groups rem =
      groups ++ rem.map (fun (e : String × List (String × PyVal)) => (e.1, PyVal.ptuple [PyVal.plist [], PyVal.pdict e.2])) := by
  intro rem
  induction rem with
  | nil => intro groups _ _; simp [addLeftoverGroups]
  | cons e rest ih =>
    intro groups habs hnd
    obtain ⟨name, data⟩ := e
    simp only [List.map_cons, List.nodup_cons] at hnd
    obtain ⟨hnamerest, hndrest⟩ := hnd
    rw [addLeftoverGroups]
    rw [dictSet_absent (habs (name, data) (List.mem_cons_self _ _))]
    rw [ih (groups ++ [(name, PyVal.ptuple [PyVal.plist [], PyVal.pdict data])]) ?_ hndrest]
    · simp
    · intro e2 he2
      rw [dictGet_append]
      rw [habs e2 (List.mem_cons_of_mem _ he2)]
      show dictGet e2.1 [(name, PyVal.ptuple [PyVal.plist [], PyVal.pdict data])] = none
      rw [dictGet]
      have hne : ¬ (name = e2.1) := by
        intro hc
        exact hnamerest (hc ▸ List.mem_map_of_mem Prod.fst he2)
      rw [if_neg hne]
      rfl

/-- C2: group-data handling of make_inventory_from_files - the scanned
folder list is the working-directory group_data folder (when a truthy
working directory was supplied), then the group_data folder next to the
definition file (unless its directory equals the working directory), then
the explicitly supplied directories; the accumulated value of any key of
any group is the one from the latest scanned entry defining it (later
folders overwrite earlier ones per key); loading data into the groups maps
each group to its normalized (hosts, data) pair with the accumulated data
for its name merged over its explicit data and consumed from the
accumulator, leaving exactly the entries for unknown group names; and every
leftover entry becomes a group with an empty host list and its data. -/
theorem claim2_group_data_merge :
    (∀ (cwd : Option String) (dirname : String) (gdd : Option (List String)),
      possibleGroupDataFolders cwd dirname gdd =
        (if optStrTruthy cwd then [pathJoin (cwd.getD "") "group_data"] else []) ++
        (if some dirname ≠ cwd then [pathJoin dirname "group_data"] else []) ++ gdd.getD []) ∧
    (∀ (gdOf : String → List (String × List (String × PyVal)))
      (folders : List String) (g k : String),
      (∀ f ∈ folders, ∀ e ∈ gdOf f, (e.2.map Prod.fst).Nodup) →
      dictGet2 (accGroupData gdOf folders []) g k = lastWins g k (foldersData gdOf folders)) ∧
    (∀ (groups : List (String × PyVal)) (gd : List (String × List (String × PyVal))),
      (groups.map Prod.fst).Nodup →
      mergeGroupData gd groups =
        (do
          let m ← exMapM (mergeEntrySpec gd) groups
          Except.ok (m, gd.filter (fun e => !(decide (e.1 ∈ groups.map Prod.fst)))))) ∧
    (∀ (rem : List (String × List (String × PyVal))) (groups : List (String × PyVal)),
      (∀ e ∈ rem, dictGet e.1 groups = none) → (rem.map Prod.fst).Nodup →
      addLeftoverGroups groups rem =
        groups ++ rem.map (fun (e : String × List (String × PyVal)) => (e.1, PyVal.ptuple [PyVal.plist [], PyVal.pdict e.2]))) := by
  refine ⟨?_, ?_, mergeGroupData_spec, addLeftoverGroups_spec⟩
  · intro cwd dirname gdd
    unfold possibleGroupDataFolders
    by_cases h1 : optStrTruthy cwd = true <;>
      by_cases h2 : some dirname ≠ cwd <;>
        cases gdd with
        | none => simp [h1, h2]
        | some ds =>
          by_cases h3 : ds = ([] : List String)
          · simp [h1, h2, h3]
          · simp [h1, h2, h3]
  · intro gdOf folders g k hnd
    rw [accGroupData_get2 gdOf folders [] g k hnd]
    cases h : lastWins g k (foldersData gdOf folders) with
    | some v => rfl
    | none => simp [dictGet2, dictGetD]

/-- C2, witness: concrete folder list, last-writer-wins accumulation over
two folders with an overlapping key, a merge consuming accumulated data
into a known group, and a leftover entry becoming an empty group. -/
theorem claim2_witness :
    possibleGroupDataFolders (some "/work") "/inv" (some ["/extra"]) =
      ["/work/group_data", "/inv/group_data", "/extra"] ∧
    dictGet2 (accGroupData
      (fun f => if f = "f1" then [("g", [("k", PyVal.pint 1), ("j", PyVal.pint 0)])]
        else if f = "f2" then [("g", [("k", PyVal.pint 2)])] else [])
      ["f1", "f2"] []) "g" "k" = some (.pint 2) ∧
    dictGet2 (accGroupData
      (fun f => if f = "f1" then [("g", [("k", PyVal.pint 1), ("j", PyVal.pint 0)])]
        else if f = "f2" then [("g", [("k", PyVal.pint 2)])] else [])
      ["f1", "f2"] []) "g" "j" = some (.pint 0) ∧
    mergeGroupData [("g1", [("a", .pint 7)])]
      [("g1", .plist [.pstr "h"]), ("all", .ptuple [.plist [], .pdict []])] =
      .ok ([("g1", .ptuple [.plist [.pstr "h"], .pdict [("a", .pint 7)]]),
        ("all", .ptuple [.plist [], .pdict []])], []) ∧
    addLeftoverGroups [("all", .ptuple [.plist [], .pdict []])] [("web", [("x", .pint 1)])] =
      [("all", .ptuple [.plist [], .pdict []]),
        ("web", .ptuple [.plist [], .pdict [("x", .pint 1)]])] := by
  refine ⟨?_, ?_, ?_, ?_, ?_⟩
  · exact (claim2_group_data_merge.1 (some "/work") "/inv" (some ["/extra"])).trans rfl
  · exact (claim2_group_data_merge.2.1 _ ["f1", "f2"] "g" "k" (by decide)).trans rfl
  · exact (claim2_group_data_merge.2.1 _ ["f1", "f2"] "g" "j" (by decide)).trans rfl
  · exact (claim2_group_data_merge.2.2.1
      [("g1", .plist [.pstr "h"]), ("all", .ptuple [.plist [], .pdict []])]
      [("g1", [("a", .pint 7)])] (by decide)).trans rfl
  · exact (claim2_group_data_merge.2.2.2 [("web", [("x", .pint 1)])]
      [("all", .ptuple [.plist [], .pdict []])]
      (by
        intro e he
        simp only [List.mem_singleton] at he
        subst he
        rfl)
      (by decide)).trans rfl

theorem dictSetD_keys (k : String) (v : List (String × PyVal)) :
    ∀ (d : List (String × List (String × PyVal))),
    (dictSetD k v d).map Prod.fst =
      if (dictGetD k d).isSome then d.map Prod.fst else d.map Prod.fst ++ [k] := by
  intro d
  induction d with
  | nil => simp [dictSetD, dictGetD]
  | cons e rest ih =>
    by_cases h : e.1 = k
    · simp [dictSetD, dictGetD, h]
    · rw [dictSetD, dictGetD, if_neg h, if_neg h]
      simp only [List.map_cons]
      rw [ih]
      cases hs : (dictGetD k rest).isSome with
      | true => simp [hs]
      | false => simp [hs]

theorem key_not_mem_of_getD_none {k : String} {d : List (String × List (String × PyVal))}
    (h : dictGetD k d = none) : k ∉ d.map Prod.fst := by
  intro hc
  obtain ⟨e, he, heq⟩ := List.mem_map.mp hc
  exact (dictGetD_eq_none_iff k d).mp h e he heq

theorem dictSetD_keys_nodup {k : String} {v : List (String × PyVal)}
    {d : List (String × List (String × PyVal))} (h : (d.map Prod.fst).Nodup) :
    ((dictSetD k v d).map Prod.fst).Nodup := by
  rw [dictSetD_keys]
  cases hs : dictGetD k d with
  | some m => simpa using h
  | none =>
    simp only [Option.isSome_none, Bool.false_eq_true, if_false]
    exact nodup_append_singleton h (key_not_mem_of_getD_none hs)

theorem accFolder_keys_nodup : ∀ (entries acc : List (String × List (String × PyVal))),
    (acc.map Prod.fst).Nodup → ((accFolder entries acc).map Prod.fst).Nodup := by
  intro entries
  induction entries with
  | nil => intro acc h; exact h
  | cons e rest ih =>
    intro acc h
    exact ih _ (dictSetD_keys_nodup h)

theorem accGroupData_keys_nodup (gdOf : String → List (String × List (String × PyVal))) :
    ∀ (folders : List String) (acc : List (String × List (String × PyVal))),
    (acc.map Prod.fst).Nodup → ((accGroupData gdOf folders acc).map Prod.fst).Nodup := by
  intro folders
  induction folders with
  | nil => intro acc h; exact h
  | cons f fs ih =>
    intro acc h
    exact ih _ (accFolder_keys_nodup (gdOf f) acc h)

theorem dictPop_cons_self (k : String) (v : PyVal) (l : List (String × PyVal))
    (hl : ∀ e ∈ l, e.1 ≠ k) : dictPop k ((k, v) :: l) = l := by
  have htail : List.filter (fun e => !(decide (e.1 = k))) l = l :=
    List.filter_eq_self.mpr (fun e he => by simp [hl e he])
  show List.filter (fun e => !(decide (e.1 = k))) ((k, v) :: l) = l
  rw [List.filter_cons]
  simp [htail]

/-- C5, amended: when the descriptor is not an existing path,
make_inventory_from_files always succeeds, the group "all" holds exactly
the descriptor split on commas - verbatim, in order, duplicates kept - with
the accumulated group data for "all" as its data; no file-derived group is
created, and the only other groups are the leftover accumulated group-data
entries, each with an empty host list. -/
theorem claim5_amended (w : World) (file : String) (od : Option (List (String × PyVal)))
    (cwd : Option String) (gdd : Option (List String))
    (h : w.pathExists file = false) :
    make_inventory_from_files w file od cwd gdd =
      .ok { all := PyVal.ptuple [PyVal.plist ((pySplit file ',').map PyVal.pstr),
              PyVal.pdict (dictUpdate [] ((dictGetD "all" (accGroupData w.groupDataOf
                (possibleGroupDataFolders cwd (w.dirnameAbs file) gdd) [])).getD []))],
            overrideData := od,
            groups := ((accGroupData w.groupDataOf
              (possibleGroupDataFolders cwd (w.dirnameAbs file) gdd) []).filter
                (fun e => !(decide (e.1 = "all")))).map
              (fun (e : String × List (String × PyVal)) => (e.1, PyVal.ptuple [PyVal.plist [], PyVal.pdict e.2])) } := by
  unfold make_inventory_from_files
  rw [h]
  set hostsVal := PyVal.plist ((pySplit file ',').map PyVal.pstr) with hhosts
  set gd := accGroupData w.groupDataOf
    (possibleGroupDataFolders cwd (w.dirnameAbs file) gdd) [] with hgddef
  have hgdnodup : (gd.map Prod.fst).Nodup := accGroupData_keys_nodup _ _ [] List.nodup_nil
  show (do
    let p ← mergeGroupData gd [("all", PyVal.ptuple [hostsVal, PyVal.pdict []])]
    let groups5 := addLeftoverGroups p.1 p.2
    match dictGet "all" groups5 with
    | some allGroup =>
      Except.ok (Inventory.mk allGroup od (dictPop "all" groups5))
    | none => Except.error PyErr.keyError) = _
  have hmergeEntry : mergeEntrySpec gd ("all", PyVal.ptuple [hostsVal, PyVal.pdict []]) =
      .ok ("all", PyVal.ptuple [hostsVal,
        PyVal.pdict (dictUpdate [] ((dictGetD "all" gd).getD []))]) := by
    rw [mergeEntrySpec]
    cases hacc : dictGetD "all" gd with
    | some extra => rfl
    | none => rfl
  have hmerge : mergeGroupData gd [("all", PyVal.ptuple [hostsVal, PyVal.pdict []])] =
      .ok ([("all", PyVal.ptuple [hostsVal,
          PyVal.pdict (dictUpdate [] ((dictGetD "all" gd).getD []))])],
        gd.filter (fun e => !(decide (e.1 = "all")))) := by
    rw [mergeGroupData_spec _ gd (by simp)]
    rw [exMapM]
    rw [hmergeEntry]
    show Except.ok ([("all", PyVal.ptuple [hostsVal,
        PyVal.pdict (dictUpdate [] ((dictGetD "all" gd).getD []))])],
      gd.filter (fun e => !(decide (e.1 ∈ (["all"] : List String))))) = _
    have hfl : gd.filter (fun e => !(decide (e.1 ∈ (["all"] : List String)))) =
        gd.filter (fun e => !(decide (e.1 = "all"))) := by
      apply List.filter_congr
      intro e _
      simp only [List.mem_singleton]
    rw [hfl]
  rw [hmerge]
  set gdLeft := gd.filter (fun e => !(decide (e.1 = "all"))) with hleft
  have hleftkeys : ∀ e ∈ gdLeft, e.1 ≠ "all" := by
    intro e he
    have := (List.mem_filter.mp he).2
    simpa using this
  have hleftnodup : (gdLeft.map Prod.fst).Nodup := by
    apply List.Nodup.sublist _ hgdnodup
    exact List.Sublist.map Prod.fst (List.filter_sublist gd)
  have haddleft : addLeftoverGroups [("all", PyVal.ptuple [hostsVal,
      PyVal.pdict (dictUpdate [] ((dictGetD "all" gd).getD []))])] gdLeft =
      [("all", PyVal.ptuple [hostsVal,
        PyVal.pdict (dictUpdate [] ((dictGetD "all" gd).getD []))])] ++
        gdLeft.map (fun (e : String × List (String × PyVal)) => (e.1, PyVal.ptuple [PyVal.plist [], PyVal.pdict e.2])) := by
    apply addLeftoverGroups_spec
    · intro e he
      rw [dictGet]
      rw [if_neg (fun hc : "all" = e.1 => hleftkeys e he hc.symm)]
      rfl
    · exact hleftnodup
  show (do
    let groups5 := addLeftoverGroups [("all", PyVal.ptuple [hostsVal,
      PyVal.pdict (dictUpdate [] ((dictGetD "all" gd).getD []))])] gdLeft
    match dictGet "all" groups5 with
    | some allGroup =>
      Except.ok (Inventory.mk allGroup od (dictPop "all" groups5))
    | none => Except.error PyErr.keyError) = _
  rw [haddleft]
  show (match dictGet "all" (("all", PyVal.ptuple [hostsVal,
      PyVal.pdict (dictUpdate [] ((dictGetD "all" gd).getD []))]) ::
      gdLeft.map (fun (e : String × List (String × PyVal)) => (e.1, PyVal.ptuple [PyVal.plist [], PyVal.pdict e.2]))) with
    | some allGroup =>
      Except.ok (Inventory.mk allGroup od (dictPop "all"
        (("all", PyVal.ptuple [hostsVal,
          PyVal.pdict (dictUpdate [] ((dictGetD "all" gd).getD []))]) ::
          gdLeft.map (fun (e : String × List (String × PyVal)) => (e.1, PyVal.ptuple [PyVal.plist [], PyVal.pdict e.2])))))
    | none => Except.error PyErr.keyError) = _
  have hget : dictGet "all" (("all", PyVal.ptuple [hostsVal,
      PyVal.pdict (dictUpdate [] ((dictGetD "all" gd).getD []))]) ::
      gdLeft.map (fun (e : String × List (String × PyVal)) => (e.1, PyVal.ptuple [PyVal.plist [], PyVal.pdict e.2]))) =
      some (PyVal.ptuple [hostsVal,
        PyVal.pdict (dictUpdate [] ((dictGetD "all" gd).getD []))]) := by
    rw [dictGet]
    simp
  rw [hget]
  have hpop : dictPop "all" (("all", PyVal.ptuple [hostsVal,
      PyVal.pdict (dictUpdate [] ((dictGetD "all" gd).getD []))]) ::
      gdLeft.map (fun (e : String × List (String × PyVal)) => (e.1, PyVal.ptuple [PyVal.plist [], PyVal.pdict e.2]))) =
      gdLeft.map (fun (e : String × List (String × PyVal)) => (e.1, PyVal.ptuple [PyVal.plist [], PyVal.pdict e.2])) := by
    apply dictPop_cons_self
    intro e he
    obtain ⟨e2, he2, heq⟩ := List.mem_map.mp he
    subst heq
    simpa using hleftkeys e2 he2
  rw [hpop]

/-- C5, counterexample: the claim says no group besides "all" is created for
a non-path descriptor; with a group_data folder defining data for web, the
comma-list path creates a web group. -/
theorem claim5_counterexample :
    make_inventory_from_files envCommaData "10.0.0.1,10.0.0.2" none none none =
      .ok { all := .ptuple [.plist [.pstr "10.0.0.1", .pstr "10.0.0.2"], .pdict []],
            overrideData := none,
            groups := [("web", .ptuple [.plist [], .pdict [("x", .pint 1)]])] } ∧
    [("web", PyVal.ptuple [.plist [], .pdict [("x", .pint 1)]])] ≠
      ([] : List (String × PyVal)) :=
  ⟨rfl, by simp⟩

/-- C5, witness: the specification scenario - descriptor 10.0.0.1,10.0.0.2,
no such file, no group data - yields all = [10.0.0.1, 10.0.0.2] and no
other groups. -/
theorem claim5_witness :
    make_inventory_from_files envPlain "10.0.0.1,10.0.0.2" none none none =
      .ok { all := .ptuple [.plist [.pstr "10.0.0.1", .pstr "10.0.0.2"], .pdict []],
            overrideData := none, groups := [] } :=
  (claim5_amended envPlain "10.0.0.1,10.0.0.2" none none none rfl).trans rfl

theorem dictSet_keys (k : String) (v : PyVal) :
    ∀ (d : List (String × PyVal)),
    (dictSet k v d).map Prod.fst =
      if (dictGet k d).isSome then d.map Prod.fst else d.map Prod.fst ++ [k] := by
  intro d
  induction d with
  | nil => simp [dictSet, dictGet]
  | cons e rest ih =>
    by_cases h : e.1 = k
    · simp [dictSet, dictGet, h]
    · rw [dictSet, dictGet, if_neg h, if_neg h]
      simp only [List.map_cons]
      rw [ih]
      cases hs : (dictGet k rest).isSome with
      | true => simp [hs]
      | false => simp [hs]

theorem key_not_mem_of_get_none {k : String} {d : List (String × PyVal)}
    (h : dictGet k d = none) : k ∉ d.map Prod.fst := by
  intro hc
  obtain ⟨e, he, heq⟩ := List.mem_map.mp hc
  exact (dictGet_eq_none_iff k d).mp h e he heq

theorem dictGet_none_of_not_mem {k : String} {d : List (String × PyVal)}
    (h : k ∉ d.map Prod.fst) : dictGet k d = none :=
  (dictGet_eq_none_iff k d).mpr (fun e he hc => h (hc ▸ List.mem_map_of_mem Prod.fst he))

theorem dictSet_keys_nodup {k : String} {v : PyVal}
    {d : List (String × PyVal)} (h : (d.map Prod.fst).Nodup) :
    ((dictSet k v d).map Prod.fst).Nodup := by
  rw [dictSet_keys]
  cases hs : dictGet k d with
  | some m => simpa using h
  | none =>
    simp only [Option.isSome_none, Bool.false_eq_true, if_false]
    exact nodup_append_singleton h (key_not_mem_of_get_none hs)

theorem dictPop_keys_nodup {k : String} {d : List (String × PyVal)}
    (h : (d.map Prod.fst).Nodup) : ((dictPop k d).map Prod.fst).Nodup :=
  List.Nodup.sublist (List.Sublist.map Prod.fst (List.filter_sublist d)) h

theorem resolveAll_rest {G G1 : List (String × PyVal)} {ah ad : PyVal}
    (h : resolveAll G = .ok (G1, ah, ad)) :
    dictGet "all" G1 = none ∧ (∀ n, n ≠ "all" → dictGet n G1 = dictGet n G) ∧
    ((G.map Prod.fst).Nodup → (G1.map Prod.fst).Nodup) := by
  rw [resolveAll] at h
  cases hg : dictGet "all" G with
  | some v =>
    rw [hg] at h
    have hpop : G1 = dictPop "all" G := by
      cases v with
      | ptuple xs =>
        match xs, h with
        | [h0, d0], h =>
          injection h with h2
          injection h2 with h3 h4
          exact h3.symm
      | pstr s =>
        injection h with h2
        injection h2 with h3 h4
        exact h3.symm
      | pint m =>
        injection h with h2
        injection h2 with h3 h4
        exact h3.symm
      | plist l =>
        injection h with h2
        injection h2 with h3 h4
        exact h3.symm
      | pdict l =>
        injection h with h2
        injection h2 with h3 h4
        exact h3.symm
      | pnone =>
        injection h with h2
        injection h2 with h3 h4
        exact h3.symm
    subst hpop
    exact ⟨dictGet_pop_self "all" G, fun n hn => dictGet_pop_ne hn G, dictPop_keys_nodup⟩
  | none =>
    rw [hg] at h
    cases hs : synthAllHosts G [] with
    | error e => rw [hs] at h; cases h
    | ok hostnames =>
      rw [hs] at h
      have h4 : Except.ok (G, PyVal.plist hostnames, PyVal.pdict []) =
        (Except.ok (G1, ah, ad) :
          Except PyErr (List (String × PyVal) × PyVal × PyVal)) := h
      injection h4 with h5
      injection h5 with h6 h7
      subst h6
      exact ⟨hg, fun n _ => rfl, id⟩

theorem applyFileGroup_get_preserve {groups : List (String × PyVal)}
    (fg : Option String) (ah : PyVal) {n : String} {x : PyVal}
    (h : dictGet n groups = some x) :
    dictGet n (applyFileGroup groups fg ah) = some x := by
  cases fg with
  | none => exact h
  | some b =>
    rw [applyFileGroup]
    by_cases hc : (b ≠ "" && !(dictContains groups b)) = true
    · rw [if_pos hc]
      have hb : dictGet b groups = none := by
        simp only [Bool.and_eq_true, Bool.not_eq_true] at hc
        have := hc.2
        rw [dictContains] at this
        cases hbb : dictGet b groups with
        | none => rfl
        | some y => rw [hbb] at this; cases this
      have hbn : b ≠ n := by
        intro hc2
        subst hc2
        rw [h] at hb
        cases hb
      rw [dictGet_set_ne hbn]
      exact h
    · rw [if_neg hc]
      exact h

theorem applyFileGroup_keys_nodup {groups : List (String × PyVal)}
    (fg : Option String) (ah : PyVal) (h : (groups.map Prod.fst).Nodup) :
    ((applyFileGroup groups fg ah).map Prod.fst).Nodup := by
  cases fg with
  | none => exact h
  | some b =>
    rw [applyFileGroup]
    by_cases hc : (b ≠ "" && !(dictContains groups b)) = true
    · rw [if_pos hc]
      exact dictSet_keys_nodup h
    · rw [if_neg hc]
      exact h

theorem mergeEntrySpec_ok_shape {gd : List (String × List (String × PyVal))}
    {n : String} {v : PyVal} {out : String × PyVal}
    (h : mergeEntrySpec gd (n, v) = .ok out) :
    ∃ d2, out = (n, PyVal.ptuple [hostsComponent v, d2]) := by
  rw [mergeEntrySpec] at h
  cases hp : pyUnpackPair v with
  | error e => rw [hp] at h; cases h
  | ok pair =>
    obtain ⟨hosts, data⟩ := pair
    rw [hp] at h
    obtain ⟨hch, hcd⟩ := pyUnpackPair_components hp
    subst hch
    cases hgd : dictGetD n gd with
    | some extra =>
      rw [hgd] at h
      cases data with
      | pdict kvs =>
        have h4 : Except.ok (n, PyVal.ptuple [hostsComponent v,
            PyVal.pdict (dictUpdate kvs extra)]) =
          (Except.ok out : Except PyErr (String × PyVal)) := h
        injection h4 with h5
        exact ⟨PyVal.pdict (dictUpdate kvs extra), h5.symm⟩
      | pstr s => cases h
      | pint m => cases h
      | plist l => cases h
      | ptuple t => cases h
      | pnone => cases h
    | none =>
      rw [hgd] at h
      have h4 : Except.ok (n, PyVal.ptuple [hostsComponent v, data]) =
        (Except.ok out : Except PyErr (String × PyVal)) := h
      injection h4 with h5
      exact ⟨data, h5.symm⟩

theorem exMapM_mergeEntry_get (gd : List (String × List (String × PyVal))) :
    ∀ (groups m : List (String × PyVal)),
    exMapM (mergeEntrySpec gd) groups = .ok m →
    ∀ (n : String) (v : PyVal), dictGet n groups = some v →
    ∃ out, mergeEntrySpec gd (n, v) = .ok (n, out) ∧ dictGet n m = some out := by
  intro groups
  induction groups with
  | nil => intro m _ n v hget; cases hget
  | cons e rest ih =>
    intro m hm n v hget
    obtain ⟨k, hv⟩ := e
    rw [exMapM] at hm
    cases hy : mergeEntrySpec gd (k, hv) with
    | error e2 => rw [hy] at hm; cases hm
    | ok y =>
      rw [hy] at hm
      cases hys : exMapM (mergeEntrySpec gd) rest with
      | error e2 => rw [hys] at hm; cases hm
      | ok ys =>
        rw [hys] at hm
        have h4 : Except.ok (y :: ys) =
          (Except.ok m : Except PyErr (List (String × PyVal))) := hm
        injection h4 with h5
        subst h5
        obtain ⟨d2, hshape⟩ := mergeEntrySpec_ok_shape hy
        subst hshape
        rw [dictGet] at hget
        by_cases hk : k = n
        · rw [if_pos hk] at hget
          injection hget with hget2
          subst hget2
          subst hk
          refine ⟨PyVal.ptuple [hostsComponent hv, d2], hy, ?_⟩
          rw [dictGet, if_pos rfl]
        · rw [if_neg hk] at hget
          obtain ⟨out, hout, hgetm⟩ := ih ys hys n v hget
          refine ⟨out, hout, ?_⟩
          rw [dictGet, if_neg hk]
          exact hgetm

theorem exMapM_mergeEntry_keys (gd : List (String × List (String × PyVal))) :
    ∀ (groups m : List (String × PyVal)),
    exMapM (mergeEntrySpec gd) groups = .ok m → m.map Prod.fst = groups.map Prod.fst := by
  intro groups
  induction groups with
  | nil =>
    intro m hm
    injection hm with h2
    subst h2
    rfl
  | cons e rest ih =>
    intro m hm
    obtain ⟨k, hv⟩ := e
    rw [exMapM] at hm
    cases hy : mergeEntrySpec gd (k, hv) with
    | error e2 => rw [hy] at hm; cases hm
    | ok y =>
      rw [hy] at hm
      cases hys : exMapM (mergeEntrySpec gd) rest with
      | error e2 => rw [hys] at hm; cases hm
      | ok ys =>
        rw [hys] at hm
        have h4 : Except.ok (y :: ys) =
          (Except.ok m : Except PyErr (List (String × PyVal))) := hm
        injection h4 with h5
        subst h5
        obtain ⟨d2, hshape⟩ := mergeEntrySpec_ok_shape hy
        subst hshape
        simp only [List.map_cons]
        rw [ih ys hys]

theorem make_files_decomp (w : World) (file : String)
    (od : Option (List (String × PyVal))) (cwd : Option String) (gdd : Option (List String))
    (G G1 : List (String × PyVal)) (ah ad : PyVal) (inv : Inventory)
    (hex : w.pathExists file = true)
    (hload : _get_groups_from_filename (w.fileAttrs file) = .ok G)
    (hres : resolveAll G = .ok (G1, ah, ad))
    (hok : make_inventory_from_files w file od cwd gdd = .ok inv) :
    ∃ m rem allG,
      mergeGroupData
        (accGroupData w.groupDataOf (possibleGroupDataFolders cwd (w.dirnameAbs file) gdd) [])
        (applyFileGroup (dictSet "all" (PyVal.ptuple [ah, ad]) G1)
          (some (stripLastExt (pyBasename file))) ah) = .ok (m, rem) ∧
      dictGet "all" (addLeftoverGroups m rem) = some allG ∧
      inv = Inventory.mk allG od (dictPop "all" (addLeftoverGroups m rem)) := by
  unfold make_inventory_from_files at hok
  rw [hex] at hok
  rw [hload] at hok
  have hok2 : (do
      let q ← resolveAll G
      let groups3 := applyFileGroup (dictSet "all" (PyVal.ptuple [q.2.1, q.2.2]) q.1)
        (some (stripLastExt (pyBasename file))) q.2.1
      let gd := accGroupData w.groupDataOf
        (possibleGroupDataFolders cwd (w.dirnameAbs file) gdd) []
      let p ← mergeGroupData gd groups3
      let groups5 := addLeftoverGroups p.1 p.2
      match dictGet "all" groups5 with
      | some allGroup => Except.ok (Inventory.mk allGroup od (dictPop "all" groups5))
      | none => Except.error PyErr.keyError) = (Except.ok inv : Except PyErr Inventory) := hok
  rw [hres] at hok2
  have hok3 : (do
      let p ← mergeGroupData
        (accGroupData w.groupDataOf (possibleGroupDataFolders cwd (w.dirnameAbs file) gdd) [])
        (applyFileGroup (dictSet "all" (PyVal.ptuple [ah, ad]) G1)
          (some (stripLastExt (pyBasename file))) ah)
      let groups5 := addLeftoverGroups p.1 p.2
      match dictGet "all" groups5 with
      | some allGroup => Except.ok (Inventory.mk allGroup od (dictPop "all" groups5))
      | none => Except.error PyErr.keyError) = (Except.ok inv : Except PyErr Inventory) := hok2
  cases hmerge : mergeGroupData
      (accGroupData w.groupDataOf (possibleGroupDataFolders cwd (w.dirnameAbs file) gdd) [])
      (applyFileGroup (dictSet "all" (PyVal.ptuple [ah, ad]) G1)
        (some (stripLastExt (pyBasename file))) ah) with
  | error e2 => rw [hmerge] at hok3; cases hok3
  | ok p =>
    rw [hmerge] at hok3
    have hok4 : (match dictGet "all" (addLeftoverGroups p.1 p.2) with
        | some allGroup =>
          Except.ok (Inventory.mk allGroup od (dictPop "all" (addLeftoverGroups p.1 p.2)))
        | none => Except.error PyErr.keyError) =
        (Except.ok inv : Except PyErr Inventory) := hok3
    cases hget : dictGet "all" (addLeftoverGroups p.1 p.2) with
    | none => rw [hget] at hok4; cases hok4
    | some allG =>
      rw [hget] at hok4
      have hok5 : Except.ok (Inventory.mk allG od (dictPop "all" (addLeftoverGroups p.1 p.2))) =
        (Except.ok inv : Except PyErr Inventory) := hok4
      injection hok5 with hok6
      exact ⟨p.1, p.2, allG, by rw [← hmerge], hget, hok6.symm⟩

theorem files_final_lookup (w : World) (file : String)
    (od : Option (List (String × PyVal))) (cwd : Option String) (gdd : Option (List String))
    (G G1 : List (String × PyVal)) (ah ad : PyVal) (inv : Inventory) (b : String) (x : PyVal)
    (hex : w.pathExists file = true)
    (hload : _get_groups_from_filename (w.fileAttrs file) = .ok G)
    (hres : resolveAll G = .ok (G1, ah, ad))
    (hok : make_inventory_from_files w file od cwd gdd = .ok inv)
    (hnodup : ((applyFileGroup (dictSet "all" (PyVal.ptuple [ah, ad]) G1)
      (some (stripLastExt (pyBasename file))) ah).map Prod.fst).Nodup)
    (hget3 : dictGet b (applyFileGroup (dictSet "all" (PyVal.ptuple [ah, ad]) G1)
      (some (stripLastExt (pyBasename file))) ah) = some x)
    (hball : b ≠ "all") :
    ∃ d2, dictGet b inv.groups = some (PyVal.ptuple [hostsComponent x, d2]) := by
  obtain ⟨m, rem, allG, hmerge, hgetall, hinv⟩ :=
    make_files_decomp w file od cwd gdd G G1 ah ad inv hex hload hres hok
  set gd := accGroupData w.groupDataOf
    (possibleGroupDataFolders cwd (w.dirnameAbs file) gdd) [] with hgddef
  set groups3 := applyFileGroup (dictSet "all" (PyVal.ptuple [ah, ad]) G1)
    (some (stripLastExt (pyBasename file))) ah with hg3def
  rw [mergeGroupData_spec groups3 gd hnodup] at hmerge
  cases hmm : exMapM (mergeEntrySpec gd) groups3 with
  | error e2 => rw [hmm] at hmerge; cases hmerge
  | ok m2 =>
    rw [hmm] at hmerge
    have h4 : Except.ok (m2, gd.filter (fun e => !(decide (e.1 ∈ groups3.map Prod.fst)))) =
      (Except.ok (m, rem) :
        Except PyErr (List (String × PyVal) × List (String × List (String × PyVal)))) := hmerge
    injection h4 with h5
    injection h5 with h6 h7
    subst h6
    obtain ⟨out, hout, hgetm⟩ := exMapM_mergeEntry_get gd groups3 m2 hmm b x hget3
    obtain ⟨d2, hshape⟩ := mergeEntrySpec_ok_shape hout
    injection hshape with hs1 hs2
    subst hs2
    have hmkeys : m2.map Prod.fst = groups3.map Prod.fst := exMapM_mergeEntry_keys gd groups3 m2 hmm
    have hremnone : ∀ e ∈ rem, dictGet e.1 m2 = none := by
      intro e he
      apply dictGet_none_of_not_mem
      rw [hmkeys]
      rw [← h7] at he
      have := (List.mem_filter.mp he).2
      simpa using this
    have hremnodup : (rem.map Prod.fst).Nodup := by
      rw [← h7]
      apply List.Nodup.sublist (List.Sublist.map Prod.fst (List.filter_sublist gd))
      exact accGroupData_keys_nodup _ _ [] List.nodup_nil
    have hspec := addLeftoverGroups_spec rem m2 hremnone hremnodup
    have hfinal : dictGet b (addLeftoverGroups m2 rem) = some (PyVal.ptuple [hostsComponent x, d2]) := by
      rw [hspec, dictGet_append, hgetm]
    refine ⟨d2, ?_⟩
    rw [hinv]
    show dictGet b (dictPop "all" (addLeftoverGroups m2 rem)) = _
    rw [dictGet_pop_ne hball, hfinal]

theorem files_final_all (w : World) (file : String)
    (od : Option (List (String × PyVal))) (cwd : Option String) (gdd : Option (List String))
    (G G1 : List (String × PyVal)) (ah ad : PyVal) (inv : Inventory)
    (hex : w.pathExists file = true)
    (hload : _get_groups_from_filename (w.fileAttrs file) = .ok G)
    (hres : resolveAll G = .ok (G1, ah, ad))
    (hok : make_inventory_from_files w file od cwd gdd = .ok inv)
    (hnodup : ((applyFileGroup (dictSet "all" (PyVal.ptuple [ah, ad]) G1)
      (some (stripLastExt (pyBasename file))) ah).map Prod.fst).Nodup) :
    ∃ d2, inv.all = PyVal.ptuple [ah, d2] := by
  obtain ⟨m, rem, allG, hmerge, hgetall, hinv⟩ :=
    make_files_decomp w file od cwd gdd G G1 ah ad inv hex hload hres hok
  set gd := accGroupData w.groupDataOf
    (possibleGroupDataFolders cwd (w.dirnameAbs file) gdd) [] with hgddef
  set groups3 := applyFileGroup (dictSet "all" (PyVal.ptuple [ah, ad]) G1)
    (some (stripLastExt (pyBasename file))) ah with hg3def
  have hget3 : dictGet "all" groups3 = some (PyVal.ptuple [ah, ad]) := by
    apply applyFileGroup_get_preserve
    exact dictGet_set_self "all" (PyVal.ptuple [ah, ad]) G1
  rw [mergeGroupData_spec groups3 gd hnodup] at hmerge
  cases hmm : exMapM (mergeEntrySpec gd) groups3 with
  | error e2 => rw [hmm] at hmerge; cases hmerge
  | ok m2 =>
    rw [hmm] at hmerge
    have h4 : Except.ok (m2, gd.filter (fun e => !(decide (e.1 ∈ groups3.map Prod.fst)))) =
      (Except.ok (m, rem) :
        Except PyErr (List (String × PyVal) × List (String × List (String × PyVal)))) := hmerge
    injection h4 with h5
    injection h5 with h6 h7
    subst h6
    obtain ⟨out, hout, hgetm⟩ := exMapM_mergeEntry_get gd groups3 m2 hmm "all" _ hget3
    obtain ⟨d2, hshape⟩ := mergeEntrySpec_ok_shape hout
    injection hshape with hs1 hs2
    subst hs2
    have hremnone : ∀ e ∈ rem, dictGet e.1 m2 = none := by
      intro e he
      apply dictGet_none_of_not_mem
      rw [exMapM_mergeEntry_keys gd groups3 m2 hmm]
      rw [← h7] at he
      have := (List.mem_filter.mp he).2
      simpa using this
    have hremnodup : (rem.map Prod.fst).Nodup := by
      rw [← h7]
      apply List.Nodup.sublist (List.Sublist.map Prod.fst (List.filter_sublist gd))
      exact accGroupData_keys_nodup _ _ [] List.nodup_nil
    have hfinal : dictGet "all" (addLeftoverGroups m2 rem) =
        some (PyVal.ptuple [hostsComponent (PyVal.ptuple [ah, ad]), d2]) := by
      rw [addLeftoverGroups_spec rem m2 hremnone hremnodup, dictGet_append, hgetm]
    rw [hfinal] at hgetall
    injection hgetall with hgall2
    refine ⟨d2, ?_⟩
    rw [hinv]
    show allG = _
    rw [← hgall2]
    rfl

/-- C4, amended: for an existing definition file whose stripped base name is
non-empty, differs from "all" and names no loaded group, the final
inventory holds a group of that name with the very hosts value of the
resolved group "all" (stated for a list-valued hosts resolution, the shape
every loader-accepted file produces); and when the base name does name a
loaded group, that group is left untouched - its final entry keeps the
hosts of its explicit definition. The truthiness check means an empty
stripped base name adds nothing even though no group of that name exists,
which is what the counterexample pins down. -/
theorem claim4_file_group :
    (∀ (w : World) (file : String) (od : Option (List (String × PyVal)))
      (cwd : Option String) (gdd : Option (List String))
      (G G1 : List (String × PyVal)) (hs : List PyVal) (ad : PyVal) (inv : Inventory),
      w.pathExists file = true →
      _get_groups_from_filename (w.fileAttrs file) = .ok G →
      (G.map Prod.fst).Nodup →
      resolveAll G = .ok (G1, .plist hs, ad) →
      stripLastExt (pyBasename file) ≠ "" →
      stripLastExt (pyBasename file) ≠ "all" →
      dictContains G (stripLastExt (pyBasename file)) = false →
      make_inventory_from_files w file od cwd gdd = .ok inv →
      (∃ d1, inv.all = PyVal.ptuple [.plist hs, d1]) ∧
      (∃ d2, dictGet (stripLastExt (pyBasename file)) inv.groups =
        some (PyVal.ptuple [.plist hs, d2]))) ∧
    (∀ (w : World) (file : String) (od : Option (List (String × PyVal)))
      (cwd : Option String) (gdd : Option (List String))
      (G G1 : List (String × PyVal)) (ah ad : PyVal) (b : String) (v : PyVal)
      (inv : Inventory),
      w.pathExists file = true →
      _get_groups_from_filename (w.fileAttrs file) = .ok G →
      (G.map Prod.fst).Nodup →
      resolveAll G = .ok (G1, ah, ad) →
      dictGet b G = some v →
      b ≠ "all" →
      make_inventory_from_files w file od cwd gdd = .ok inv →
      ∃ d2, dictGet b inv.groups = some (PyVal.ptuple [hostsComponent v, d2])) := by
  constructor
  · intro w file od cwd gdd G G1 hs ad inv hex hload hnodup hres hb hball hnotin hok
    obtain ⟨hG1all, hG1get, hG1nodup⟩ := resolveAll_rest hres
    have hG1nd := hG1nodup hnodup
    have hg2nd : ((dictSet "all" (PyVal.ptuple [.plist hs, ad]) G1).map Prod.fst).Nodup :=
      dictSet_keys_nodup hG1nd
    have hGb : dictGet (stripLastExt (pyBasename file)) G = none := by
      rw [dictContains] at hnotin
      cases hg : dictGet (stripLastExt (pyBasename file)) G with
      | none => rfl
      | some y => rw [hg] at hnotin; cases hnotin
    have hbG1 : dictGet (stripLastExt (pyBasename file)) G1 = none := by
      rw [hG1get _ hball]
      exact hGb
    have hbg2 : dictGet (stripLastExt (pyBasename file))
        (dictSet "all" (PyVal.ptuple [.plist hs, ad]) G1) = none := by
      rw [dictGet_set_ne (fun hc => hball hc.symm)]
      exact hbG1
    have happ : applyFileGroup (dictSet "all" (PyVal.ptuple [.plist hs, ad]) G1)
        (some (stripLastExt (pyBasename file))) (.plist hs) =
        dictSet (stripLastExt (pyBasename file)) (.plist hs)
          (dictSet "all" (PyVal.ptuple [.plist hs, ad]) G1) := by
      rw [applyFileGroup, if_pos]
      simp [hb, dictContains, hbg2]
    have hg3nd : ((applyFileGroup (dictSet "all" (PyVal.ptuple [.plist hs, ad]) G1)
        (some (stripLastExt (pyBasename file))) (.plist hs)).map Prod.fst).Nodup := by
      rw [happ]
      exact dictSet_keys_nodup hg2nd
    constructor
    · exact files_final_all w file od cwd gdd G G1 (.plist hs) ad inv
        hex hload hres hok hg3nd
    · have hget3 : dictGet (stripLastExt (pyBasename file))
          (applyFileGroup (dictSet "all" (PyVal.ptuple [.plist hs, ad]) G1)
            (some (stripLastExt (pyBasename file))) (.plist hs)) = some (.plist hs) := by
        rw [happ]
        exact dictGet_set_self _ _ _
      exact files_final_lookup w file od cwd gdd G G1 (.plist hs) ad inv
        (stripLastExt (pyBasename file)) (.plist hs) hex hload hres hok hg3nd hget3 hball
  · intro w file od cwd gdd G G1 ah ad b v inv hex hload hnodup hres hbv hball hok
    obtain ⟨hG1all, hG1get, hG1nodup⟩ := resolveAll_rest hres
    have hG1nd := hG1nodup hnodup
    have hg2 : dictGet b (dictSet "all" (PyVal.ptuple [ah, ad]) G1) = some v := by
      rw [dictGet_set_ne (fun hc => hball hc.symm)]
      rw [hG1get b hball]
      exact hbv
    have hget3 : dictGet b (applyFileGroup (dictSet "all" (PyVal.ptuple [ah, ad]) G1)
        (some (stripLastExt (pyBasename file))) ah) = some v :=
      applyFileGroup_get_preserve _ _ hg2
    have hg3nd : ((applyFileGroup (dictSet "all" (PyVal.ptuple [ah, ad]) G1)
        (some (stripLastExt (pyBasename file))) ah).map Prod.fst).Nodup :=
      applyFileGroup_keys_nodup _ _ (dictSet_keys_nodup hG1nd)
    exact files_final_lookup w file od cwd gdd G G1 ah ad inv b v
      hex hload hres hok hg3nd hget3 hball

/-- C4, counterexample: the hidden definition file .py has the empty string
as its extension-stripped base name; no group of that name is defined, yet
no such group is added - the resulting inventory holds only g1 - refuting
the claimed if-and-only-if. -/
theorem claim4_counterexample :
    stripLastExt (pyBasename ".py") = "" ∧
    dictContains (envDotFile.fileAttrs ".py") "" = false ∧
    make_inventory_from_files envDotFile ".py" none none none =
      .ok { all := .ptuple [.plist [.pstr "a"], .pdict []],
            overrideData := none,
            groups := [("g1", .ptuple [.plist [.pstr "a"], .pdict []])] } ∧
    dictContains [("g1", PyVal.ptuple [.plist [.pstr "a"], .pdict []])] "" = false :=
  ⟨rfl, rfl, rfl, rfl⟩

/-- C4, witness: resolving inventories/dev.py, which defines g1 = [a, b] and
no dev group, yields a dev group with exactly the hosts of the group "all";
the explicitly defined g1 keeps its own hosts. -/
theorem claim4_witness :
    ((∃ d1, (Inventory.mk (PyVal.ptuple [.plist [.pstr "a", .pstr "b"], .pdict []]) none
        [("g1", .ptuple [.plist [.pstr "a", .pstr "b"], .pdict []]),
          ("dev", .ptuple [.plist [.pstr "a", .pstr "b"], .pdict []])]).all =
        PyVal.ptuple [.plist [.pstr "a", .pstr "b"], d1]) ∧
      (∃ d2, dictGet "dev"
        [("g1", PyVal.ptuple [.plist [.pstr "a", .pstr "b"], .pdict []]),
          ("dev", PyVal.ptuple [.plist [.pstr "a", .pstr "b"], .pdict []])] =
        some (PyVal.ptuple [.plist [.pstr "a", .pstr "b"], d2]))) ∧
    (∃ d2, dictGet "g1"
      [("g1", PyVal.ptuple [.plist [.pstr "a", .pstr "b"], .pdict []]),
        ("dev", PyVal.ptuple [.plist [.pstr "a", .pstr "b"], .pdict []])] =
      some (PyVal.ptuple [.plist [.pstr "a", .pstr "b"], d2])) := by
  constructor
  · exact claim4_file_group.1 envDevFile "inventories/dev.py" none none none
      [("g1", .plist [.pstr "a", .pstr "b"])] [("g1", .plist [.pstr "a", .pstr "b"])]
      [.pstr "a", .pstr "b"] (.pdict [])
      (Inventory.mk (PyVal.ptuple [.plist [.pstr "a", .pstr "b"], .pdict []]) none
        [("g1", .ptuple [.plist [.pstr "a", .pstr "b"], .pdict []]),
          ("dev", .ptuple [.plist [.pstr "a", .pstr "b"], .pdict []])])
      rfl rfl (by decide) rfl (by decide) (by decide) rfl rfl
  · exact claim4_file_group.2 envDevFile "inventories/dev.py" none none none
      [("g1", .plist [.pstr "a", .pstr "b"])] [("g1", .plist [.pstr "a", .pstr "b"])]
      (.plist [.pstr "a", .pstr "b"]) (.pdict []) "g1" (.plist [.pstr "a", .pstr "b"])
      (Inventory.mk (PyVal.ptuple [.plist [.pstr "a", .pstr "b"], .pdict []]) none
        [("g1", .ptuple [.plist [.pstr "a", .pstr "b"], .pdict []]),
          ("dev", .ptuple [.plist [.pstr "a", .pstr "b"], .pdict []])])
      rfl rfl (by decide) rfl rfl (by decide) rfl
